import Mathlib

/-!
Shallow embedding of the `basic_tar` crate: the classic oldstyle tar header
codec (octal fields, NUL/space-terminated string fields, checksum), the
resumable exact-read primitive, and the block-alignment helper.

Bytes are modelled as `Nat` (with explicit `< 256` side conditions where the
Rust `u8` type guarantees them), Rust `String`s as their UTF-8 byte lists,
`u64` arithmetic as `Nat` with explicit `% 2 ^ 64` where overflow matters,
and fallible Rust functions as `Except BasicTarError`.
-/

deriving instance DecidableEq for Except

namespace BasicTar

/-- `BasicTarError` from `src/lib.rs`. -/
inductive BasicTarError where
  | ApiMisuse (msg : String)
  | InvalidData (msg : String)
  | Unsupported (msg : String)
  | EmptyHeader
deriving DecidableEq

/-! ## UTF-8 model (Rust `std`: `String::from_utf8`, `str::trim_end`) -/

/-- Lower bound for the second byte of a 3-byte UTF-8 sequence with lead `b`. -/
def utf8Cont2Lo (b : Nat) : Nat := if b = 0xE0 then 0xA0 else 0x80

/-- Upper bound for the second byte of a 3-byte UTF-8 sequence with lead `b`. -/
def utf8Cont2Hi (b : Nat) : Nat := if b = 0xED then 0x9F else 0xBF

/-- Lower bound for the second byte of a 4-byte UTF-8 sequence with lead `b`. -/
def utf8Cont3Lo (b : Nat) : Nat := if b = 0xF0 then 0x90 else 0x80

/-- Upper bound for the second byte of a 4-byte UTF-8 sequence with lead `b`. -/
def utf8Cont3Hi (b : Nat) : Nat := if b = 0xF4 then 0x8F else 0xBF

/-- Consume the continuation byte of a 2-byte UTF-8 sequence with lead `b`. -/
def utf8Split2 (b : Nat) : List Nat → Option (Nat × List Nat)
  | b1 :: rest1 =>
    if 0x80 ≤ b1 ∧ b1 ≤ 0xBF then some ((b - 0xC0) * 64 + (b1 - 0x80), rest1) else none
  | [] => none

/-- Consume the continuation bytes of a 3-byte UTF-8 sequence with lead `b`. -/
def utf8Split3 (b : Nat) : List Nat → Option (Nat × List Nat)
  | b1 :: b2 :: rest2 =>
    if utf8Cont2Lo b ≤ b1 ∧ b1 ≤ utf8Cont2Hi b ∧ 0x80 ≤ b2 ∧ b2 ≤ 0xBF then
      some ((b - 0xE0) * 4096 + (b1 - 0x80) * 64 + (b2 - 0x80), rest2)
    else none
  | _ => none

/-- Consume the continuation bytes of a 4-byte UTF-8 sequence with lead `b`. -/
def utf8Split4 (b : Nat) : List Nat → Option (Nat × List Nat)
  | b1 :: b2 :: b3 :: rest3 =>
    if utf8Cont3Lo b ≤ b1 ∧ b1 ≤ utf8Cont3Hi b ∧ 0x80 ≤ b2 ∧ b2 ≤ 0xBF ∧
        0x80 ≤ b3 ∧ b3 ≤ 0xBF then
      some ((b - 0xF0) * 262144 + (b1 - 0x80) * 4096 + (b2 - 0x80) * 64 + (b3 - 0x80), rest3)
    else none
  | _ => none

/-- Decode one UTF-8 character with lead byte `b`: the code point and the
remaining bytes, or `none` on invalid input. -/
def utf8SplitChar (b : Nat) (rest : List Nat) : Option (Nat × List Nat) :=
  if b ≤ 0x7F then some (b, rest)
  else if 0xC2 ≤ b ∧ b ≤ 0xDF then utf8Split2 b rest
  else if 0xE0 ≤ b ∧ b ≤ 0xEF then utf8Split3 b rest
  else if 0xF0 ≤ b ∧ b ≤ 0xF4 then utf8Split4 b rest
  else none

/-- Character-by-character UTF-8 decoding with explicit fuel (any fuel at
least the byte count is enough, since every character consumes a byte). -/
def utf8DecodeAux : Nat → List Nat → Option (List Nat)
  | _, [] => some []
  | 0, _ :: _ => none
  | fuel + 1, b :: rest =>
    match utf8SplitChar b rest with
    | some (c, rest2) => (utf8DecodeAux fuel rest2).map (fun cs => c :: cs)
    | none => none

/-- Standard UTF-8 decoding of a byte list into code points; `none` on invalid
input. Models the validity check of Rust's `String::from_utf8`. -/
def utf8Decode (s : List Nat) : Option (List Nat) := utf8DecodeAux s.length s

/-- UTF-8 encoding of one code point. -/
def utf8EncodeChar (c : Nat) : List Nat :=
  if c < 0x80 then [c]
  else if c < 0x800 then [0xC0 + c / 64, 0x80 + c % 64]
  else if c < 0x10000 then [0xE0 + c / 4096, 0x80 + c / 64 % 64, 0x80 + c % 64]
  else [0xF0 + c / 262144, 0x80 + c / 4096 % 64, 0x80 + c / 64 % 64, 0x80 + c % 64]

/-- UTF-8 encoding of a code-point list. -/
def utf8Encode (cs : List Nat) : List Nat := (cs.map utf8EncodeChar).flatten

/-- The Unicode `White_Space` property, as used by Rust's `char::is_whitespace`. -/
def isWhitespaceChar (c : Nat) : Bool :=
  c == 9 || c == 10 || c == 11 || c == 12 || c == 13 || c == 32 || c == 133 || c == 160 ||
  c == 5760 || (8192 ≤ c && c ≤ 8202) || c == 8232 || c == 8233 || c == 8239 || c == 8287 ||
  c == 12288

/-- Rust `str::trim_end` on the UTF-8 byte representation of a string: decode,
drop trailing whitespace code points, re-encode. (The `none` branch is
unreachable for byte lists that came out of a Rust `String`.) -/
def trimEnd (s : List Nat) : List Nat :=
  match utf8Decode s with
  | some cs => utf8Encode ((cs.reverse.dropWhile isWhitespaceChar).reverse)
  | none => s

/-! ## Octal digit strings (Rust `format!("\x7b:o\x7d", n)` and `u64::from_str_radix(s, 8)`) -/

/-- Minimal octal representation of `n` as ASCII digit bytes, with explicit
fuel so that the definition is structurally recursive. -/
def octalReprAux : Nat → Nat → List Nat
  | 0, _ => []
  | fuel + 1, n =>
    if n < 8 then [48 + n] else octalReprAux fuel (n / 8) ++ [48 + n % 8]

/-- `format!("\x7b:o\x7d", n)`: the minimal octal digit string of `n`, as ASCII bytes. -/
def octalRepr (n : Nat) : List Nat := octalReprAux (n + 1) n

/-- The digit loop of `u64::from_str_radix(_, 8)`: accumulate base-8 digits,
failing on a non-digit byte or on `u64` overflow. -/
def parseOctalDigits : Nat → List Nat → Option Nat
  | acc, [] => some acc
  | acc, c :: rest =>
    if 48 ≤ c ∧ c ≤ 55 then
      if acc * 8 + (c - 48) < 2 ^ 64 then parseOctalDigits (acc * 8 + (c - 48)) rest
      else none
    else none

/-- `u64::from_str_radix(s, 8)` on the byte representation of `s`: an optional
leading ASCII plus sign, then a non-empty run of octal digits. -/
def fromStrRadix8 (s : List Nat) : Option Nat :=
  match s with
  | [] => none
  | c :: rest =>
    if c = 43 then (if rest.isEmpty then none else parseOctalDigits 0 rest)
    else parseOctalDigits 0 (c :: rest)

/-! ## Field codec (`src/header/raw.rs`, `StringExt` and `U64Ext`) -/

/-- `Option::<String>::from_field`: cut at the first NUL, empty means absent,
otherwise require valid UTF-8. -/
def fromField (field : List Nat) : Except BasicTarError (Option (List Nat)) :=
  let nul := field.findIdx (fun b => b == 0)
  let data := field.take nul
  if data.isEmpty then Except.ok none
  else
    match utf8Decode data with
    | some _ => Except.ok (some data)
    | none => Except.error (BasicTarError.Unsupported "Header field is not UTF-8")

/-- `String::from_field`: like `fromField` but an absent value is an error. -/
def stringFromField (field : List Nat) : Except BasicTarError (List Nat) := do
  match ← fromField field with
  | some s => pure s
  | none => throw (BasicTarError.InvalidData "Required field is empty")

/-- `Option::<String>::into_field`: fail if the value is longer than the field,
otherwise write it and NUL-pad the rest. Returns the new field contents. -/
def intoField (s : Option (List Nat)) (field : List Nat) : Except BasicTarError (List Nat) :=
  if field.length < ((s.map List.length).getD 0) then
    Except.error (BasicTarError.ApiMisuse "`field` is too small to hold the value")
  else
    Except.ok ((s.getD [] ++ List.replicate field.length 0).take field.length)

/-- `Option::<String>::from_terminated_field`: cut at the first ASCII space
(whole field if none), then decode as a plain string field. -/
def fromTerminatedField (field : List Nat) : Except BasicTarError (Option (List Nat)) :=
  fromField (field.take (field.findIdx (fun b => b == 32)))

/-- `Option::<String>::into_terminated_field`: write the value into the first
`W-1` bytes and force the final byte to NUL. -/
def intoTerminatedField (s : Option (List Nat)) (field : List Nat) :
    Except BasicTarError (List Nat) :=
  if field.length = 0 then
    Except.error (BasicTarError.ApiMisuse "`field` is too small to hold the value")
  else
    (intoField s (field.take (field.length - 1))).map (fun f => f ++ [0])

/-- `Option::<u64>::from_octal_field`: terminated-string decode, trim trailing
whitespace, empty means absent, otherwise parse base 8. -/
def optionFromOctalField (field : List Nat) : Except BasicTarError (Option Nat) := do
  let string ← fromTerminatedField field
  match string.map trimEnd with
  | some octal =>
    if octal.length > 0 then
      match fromStrRadix8 octal with
      | some num => pure (some num)
      | none => throw (BasicTarError.InvalidData "Invalid octal number")
    else pure none
  | none => pure none

/-- `Option::<u64>::into_octal_field`: format the value in octal (empty for an
absent value), left-pad with ASCII zeros to width `W-1`, terminated-encode. -/
def optionIntoOctalField (v : Option Nat) (field : List Nat) :
    Except BasicTarError (List Nat) :=
  let num := (v.map octalRepr).getD []
  let pad := (field.length - 1) - num.length
  intoTerminatedField (some (List.replicate pad 48 ++ num)) field

/-- `u64::from_octal_field`: like the optional variant but absent is an error. -/
def u64FromOctalField (field : List Nat) : Except BasicTarError Nat := do
  match ← optionFromOctalField field with
  | some num => pure num
  | none => throw (BasicTarError.InvalidData "Required field is empty")

/-- `u64::into_octal_field`: encode a present value. -/
def u64IntoOctalField (v : Nat) (field : List Nat) : Except BasicTarError (List Nat) :=
  optionIntoOctalField (some v) field

/-! ## Raw header block (`src/header/raw.rs`, `header` module) -/

/-- The packed raw header struct: one byte list per field of the classic
oldstyle tar header (`name[100]`, `mode[8]`, `uid[8]`, `gid[8]`, `size[12]`,
`mtime[12]`, `checksum[8]`, `typeflag[1]`, `linkname[100]`, `_extra[243]`,
`_pad[12]`). -/
structure RawHeader where
  name : List Nat
  mode : List Nat
  uid : List Nat
  gid : List Nat
  size : List Nat
  mtime : List Nat
  checksum : List Nat
  typeflag : List Nat
  linkname : List Nat
  extra : List Nat
  pad : List Nat
deriving DecidableEq

/-- The transmute `Header -> Raw`: concatenate the fields in layout order. -/
def RawHeader.toRaw (t : RawHeader) : List Nat :=
  t.name ++ (t.mode ++ (t.uid ++ (t.gid ++ (t.size ++ (t.mtime ++ (t.checksum ++
    (t.typeflag ++ (t.linkname ++ (t.extra ++ t.pad)))))))))

/-- The transmute `Raw -> Header`: slice the 512-byte block at the fixed
field offsets. -/
def RawHeader.fromRaw (data : List Nat) : RawHeader where
  name := data.take 100
  mode := (data.drop 100).take 8
  uid := (data.drop 108).take 8
  gid := (data.drop 116).take 8
  size := (data.drop 124).take 12
  mtime := (data.drop 136).take 12
  checksum := (data.drop 148).take 8
  typeflag := (data.drop 156).take 1
  linkname := (data.drop 157).take 100
  extra := (data.drop 257).take 243
  pad := (data.drop 500).take 12

/-- The byte contents of a `W`-wide octal field holding the value `v`:
zero-padded octal digits and a NUL terminator (the output shape of
`into_octal_field` on a `W`-byte field). -/
def octField (W v : Nat) : List Nat :=
  List.replicate (W - 1 - (octalRepr v).length) 48 ++ octalRepr v ++ [0]

/-- The byte contents of a `W`-wide string field holding the value `s`:
the bytes of `s` followed by NUL padding (the output shape of `into_field`
on a `W`-byte field). -/
def strField (W : Nat) (s : List Nat) : List Nat :=
  s ++ List.replicate (W - s.length) 0

/-- The raw header produced by `Header::serialize` before (or after) the
checksum write: encoded name and octal fields, a given checksum field,
the typeflag byte, the encoded linkname, and zeroed reserved areas. -/
def packRaw (path : List Nat) (m u g sz mt tf : Nat) (lf cs : List Nat) : RawHeader :=
  ⟨strField 100 path, octField 8 m, octField 8 u, octField 8 g, octField 12 sz,
    octField 12 mt, cs, [tf], lf, List.replicate 243 0, List.replicate 12 0⟩

/-- The all-zero raw header, `raw::header::header()`. -/
def zeroRawHeader : RawHeader :=
  ⟨List.replicate 100 0, List.replicate 8 0, List.replicate 8 0, List.replicate 8 0,
    List.replicate 12 0, List.replicate 12 0, List.replicate 8 0, List.replicate 1 0,
    List.replicate 100 0, List.replicate 243 0, List.replicate 12 0⟩

/-- The fields have the widths fixed by the block layout. -/
def RawHeader.lengthsOk (t : RawHeader) : Prop :=
  t.name.length = 100 ∧ t.mode.length = 8 ∧ t.uid.length = 8 ∧ t.gid.length = 8 ∧
  t.size.length = 12 ∧ t.mtime.length = 12 ∧ t.checksum.length = 8 ∧
  t.typeflag.length = 1 ∧ t.linkname.length = 100 ∧ t.extra.length = 243 ∧
  t.pad.length = 12

/-! ## Checksum (`src/header/raw.rs`, `Checksum`) -/

/-- The checksum description from the spec: the sum of all block bytes with
the bytes at offsets `148..156` each replaced by ASCII space. -/
def checksumSpec (raw : List Nat) : Nat :=
  (raw.enum.map (fun p => if 148 ≤ p.1 ∧ p.1 < 156 then 32 else p.2)).sum

/-- `Checksum::compute`: sum bytes `0..148`, eight ASCII spaces for the
checksum field, then bytes `156..512`. -/
def Checksum.compute (tar : RawHeader) : Nat :=
  (tar.toRaw.take 148 ++ List.replicate 8 32 ++ tar.toRaw.drop 156).foldl
    (fun sum byte => sum + byte) 0

/-- `Checksum::write`: octal-encode the computed checksum into the checksum
field. The Rust code panics if the encode fails; that branch is modelled as
the error case of the `Except`. -/
def Checksum.write (tar : RawHeader) : Except BasicTarError RawHeader :=
  (u64IntoOctalField (Checksum.compute tar) tar.checksum).map
    (fun cs => { tar with checksum := cs })

/-- `Checksum::verify`: octal-decode the stored checksum (required field) and
compare with the recomputed one. -/
def Checksum.verify (tar : RawHeader) : Except BasicTarError Unit := do
  let stored ← u64FromOctalField tar.checksum
  if Checksum.compute tar = stored then pure ()
  else throw (BasicTarError.InvalidData "Invalid header checksum")

/-! ## Typed header (`src/header/mod.rs`) -/

/-- The typed tar header. `path` and `linkname` are Rust strings modelled as
their UTF-8 byte lists; numbers are `u64` values modelled as `Nat`. -/
structure Header where
  path : List Nat
  mode : Option Nat
  uid : Option Nat
  gid : Option Nat
  size : Nat
  mtime : Option Nat
  typeflag : Nat
  linkname : Option (List Nat)
deriving DecidableEq

/-- `Header::parse`: empty-block check, checksum verification, then field
decoding in source order. -/
def Header.parse (data : List Nat) : Except BasicTarError Header := do
  if data = List.replicate 512 0 then
    throw BasicTarError.EmptyHeader
  else
    let tar := RawHeader.fromRaw data
    Checksum.verify tar
    let path ← stringFromField tar.name
    let mode ← optionFromOctalField tar.mode
    let uid ← optionFromOctalField tar.uid
    let gid ← optionFromOctalField tar.gid
    let size ← u64FromOctalField tar.size
    let mtime ← optionFromOctalField tar.mtime
    let linkname ← fromField tar.linkname
    pure ⟨path, mode, uid, gid, size, mtime, tar.typeflag.headD 0, linkname⟩

/-- `Header::serialize`: start from the all-zero header, encode the fields in
source order, then compute and write the checksum. -/
def Header.serialize (h : Header) : Except BasicTarError (List Nat) := do
  let name ← intoField (some h.path) (List.replicate 100 0)
  let mode ← optionIntoOctalField h.mode (List.replicate 8 0)
  let uid ← optionIntoOctalField h.uid (List.replicate 8 0)
  let gid ← optionIntoOctalField h.gid (List.replicate 8 0)
  let size ← u64IntoOctalField h.size (List.replicate 12 0)
  let mtime ← optionIntoOctalField h.mtime (List.replicate 12 0)
  let linkname ← intoField h.linkname (List.replicate 100 0)
  let tar : RawHeader :=
    ⟨name, mode, uid, gid, size, mtime, List.replicate 8 0, [h.typeflag], linkname,
      List.replicate 243 0, List.replicate 12 0⟩
  let tar ← Checksum.write tar
  pure tar.toRaw

/-! ## Resumable exact read (`src/helpers.rs`, `ReadExt::try_read_exact`) -/

/-- The `io::ErrorKind` values relevant to the stream helpers. -/
inductive IOErrorKind where
  | interrupted
  | unexpectedEof
  | writeZero
  | timedOut
  | otherKind
deriving DecidableEq

/-- The observable outcome of one `try_read_exact` call: the returned result,
the bytes placed into the destination buffer, and the arguments passed to the
progress callback, in order. -/
structure ReadResult where
  result : Except IOErrorKind Unit
  bytes : List Nat
  calls : List Nat

/-- `ReadExt::try_read_exact`, driven by a script of underlying `read`
outcomes (an error kind, or the bytes the stream delivers). `n` is the length
of the remaining unfilled buffer. `none` means the script was exhausted or
violated the `Read` contract (delivered more bytes than requested). -/
def tryReadExact : List (Except IOErrorKind (List Nat)) → Nat → Option ReadResult
  | _, 0 => some ⟨Except.ok (), [], []⟩
  | [], _ + 1 => none
  | Except.error IOErrorKind.interrupted :: rest, n + 1 => tryReadExact rest (n + 1)
  | Except.error e :: _, _ + 1 => some ⟨Except.error e, [], []⟩
  | Except.ok data :: rest, n + 1 =>
    if data.length = 0 then some ⟨Except.error IOErrorKind.unexpectedEof, [], []⟩
    else if data.length ≤ n + 1 then
      (tryReadExact rest (n + 1 - data.length)).map
        (fun r => ⟨r.result, data ++ r.bytes, data.length :: r.calls⟩)
    else none

/-! ## Block alignment (`src/helpers.rs`, `U64Ext::ceil_to_multiple_of`) -/

/-- `u64::ceil_to_multiple_of`: round up to the next multiple of `num`, with
`u64` wraparound on the addition. -/
def u64CeilToMultipleOf (x num : Nat) : Nat :=
  if x % num = 0 then x else (x + (num - x % num)) % 2 ^ 64

/-- `Except.isOk` as a plain definition over our error type. -/
def exceptIsOk {α : Type} (e : Except BasicTarError α) : Bool :=
  match e with
  | Except.ok _ => true
  | Except.error _ => false

/-! ## General helper lemmas -/

theorem findIdx_append_of_none {p : Nat → Bool} {l₁ : List Nat} (l₂ : List Nat)
    (h : ∀ a ∈ l₁, p a = false) :
    List.findIdx p (l₁ ++ l₂) = l₁.length + List.findIdx p l₂ := by
  induction l₁ with
  | nil => simp
  | cons a t ih =>
    have ha : p a = false := h a (by simp)
    simp [List.findIdx_cons, ha, ih (fun x hx => h x (by simp [hx])),
      Nat.add_assoc, Nat.add_comm 1]

theorem findIdx_eq_length_of_none {p : Nat → Bool} {l : List Nat}
    (h : ∀ a ∈ l, p a = false) : List.findIdx p l = l.length := by
  have := @findIdx_append_of_none p l [] h
  simpa using this

/-- `fromField` only looks at the bytes before the first NUL. -/
theorem fromField_append_nul {data : List Nat} (l : List Nat) (h : ¬ 0 ∈ data) :
    fromField (data ++ 0 :: l) = fromField data := by
  have hnone : ∀ a ∈ data, (fun b => b == 0) a = false := by
    intro a ha
    simp only [beq_eq_false_iff_ne, ne_eq]
    exact fun he => h (he ▸ ha)
  have h1 : List.findIdx (fun b => b == 0) (data ++ 0 :: l) = data.length := by
    rw [findIdx_append_of_none _ hnone]
    simp [List.findIdx_cons]
  have h2 : List.findIdx (fun b => b == 0) data = data.length :=
    findIdx_eq_length_of_none hnone
  unfold fromField
  simp only [h1, h2, List.take_left, List.take_length]

/-! ## C2: empty-block detection -/

set_option maxRecDepth 10000 in
/-- C2: parsing the all-zero 512-byte block yields the distinguished
`EmptyHeader` outcome (not a checksum or field error); the check precedes
checksum verification and field decoding. -/
theorem parse_zero_block_is_empty_header :
    Header.parse (List.replicate 512 0) = Except.error BasicTarError.EmptyHeader := rfl

/-! ## C9: block alignment -/

/-- C9: `ceil_to_multiple_of` maps `0, 1, 512, 513` to `0, 512, 512, 1024`,
and whenever the rounded value does not overflow `u64` it returns the least
multiple of 512 that is at least the input. -/
theorem ceilToMultipleOf_correct :
    u64CeilToMultipleOf 0 512 = 0 ∧ u64CeilToMultipleOf 1 512 = 512 ∧
    u64CeilToMultipleOf 512 512 = 512 ∧ u64CeilToMultipleOf 513 512 = 1024 ∧
    ∀ n : Nat, n < 2 ^ 64 → (n % 512 ≠ 0 → n + (512 - n % 512) < 2 ^ 64) →
      512 ∣ u64CeilToMultipleOf n 512 ∧ n ≤ u64CeilToMultipleOf n 512 ∧
      ∀ m : Nat, 512 ∣ m → n ≤ m → u64CeilToMultipleOf n 512 ≤ m := by
  refine ⟨by decide, by decide, by decide, by decide, ?_⟩
  intro n hn hov
  unfold u64CeilToMultipleOf
  by_cases h : n % 512 = 0
  · simp only [h, if_pos rfl]
    exact ⟨Nat.dvd_of_mod_eq_zero h, Nat.le_refl n, fun m _ hm => hm⟩
  · rw [if_neg h, Nat.mod_eq_of_lt (hov h)]
    have hd := Nat.div_add_mod n 512
    refine ⟨⟨n / 512 + 1, by omega⟩, by omega, ?_⟩
    intro m hm hnm
    obtain ⟨k, rfl⟩ := hm
    omega

/-- Witness for C9: the rounding properties at the concrete input 777. -/
theorem ceilToMultipleOf_correct_witness :
    512 ∣ u64CeilToMultipleOf 777 512 :=
  (ceilToMultipleOf_correct.2.2.2.2 777 (by decide) (by decide)).1

/-! ## C10: space-led terminated fields decode as absent -/

/-- C10: a terminated or octal field whose first byte is an ASCII space
decodes to the absent value (`none` for optional fields, a "Required field is
empty" error for required ones), so a checksum field left-padded with spaces
never passes checksum verification. -/
theorem space_led_field_decodes_absent :
    (∀ rest : List Nat, fromTerminatedField (32 :: rest) = Except.ok none) ∧
    (∀ rest : List Nat, optionFromOctalField (32 :: rest) = Except.ok none) ∧
    (∀ rest : List Nat, u64FromOctalField (32 :: rest) =
      Except.error (BasicTarError.InvalidData "Required field is empty")) ∧
    ∀ (t : RawHeader) (rest : List Nat), t.checksum = 32 :: rest →
      Checksum.verify t = Except.error (BasicTarError.InvalidData "Required field is empty") := by
  have h1 : ∀ rest : List Nat, fromTerminatedField (32 :: rest) = Except.ok none := by
    intro rest
    unfold fromTerminatedField
    simp [List.findIdx_cons, fromField]
  have h2 : ∀ rest : List Nat, optionFromOctalField (32 :: rest) = Except.ok none := by
    intro rest
    unfold optionFromOctalField
    rw [h1]
    rfl
  have h3 : ∀ rest : List Nat, u64FromOctalField (32 :: rest) =
      Except.error (BasicTarError.InvalidData "Required field is empty") := by
    intro rest
    unfold u64FromOctalField
    rw [h2]
    rfl
  refine ⟨h1, h2, h3, ?_⟩
  intro t rest ht
  unfold Checksum.verify
  rw [ht, h3]
  rfl

/-- Witness for C10 at a concrete raw header whose checksum field starts with
an ASCII space. -/
theorem space_led_field_decodes_absent_witness :
    Checksum.verify
      ⟨List.replicate 100 0, List.replicate 8 0, List.replicate 8 0, List.replicate 8 0,
        List.replicate 12 0, List.replicate 12 0, 32 :: List.replicate 7 0,
        List.replicate 1 0, List.replicate 100 0, List.replicate 243 0,
        List.replicate 12 0⟩ =
      Except.error (BasicTarError.InvalidData "Required field is empty") :=
  space_led_field_decodes_absent.2.2.2 _ (List.replicate 7 0) rfl

/-! ## C7: terminated-field encode writes NUL, decode tolerates space or NUL -/

/-- C7: every successful terminated-field encode ends the field with a NUL
byte (never a space), while terminated-field decode yields the same value for
a space-terminated and for a NUL-terminated field. -/
theorem terminated_field_terminator :
    (∀ (s : Option (List Nat)) (field f : List Nat),
      intoTerminatedField s field = Except.ok f → f.getLast? = some 0) ∧
    ∀ (data r1 r2 : List Nat), ¬ 32 ∈ data → ¬ 0 ∈ data →
      fromTerminatedField (data ++ 32 :: r1) = fromField data ∧
      fromTerminatedField (data ++ 0 :: r2) = fromField data := by
  constructor
  · intro s field f h
    unfold intoTerminatedField at h
    by_cases hf : field.length = 0
    · rw [if_pos hf] at h
      exact absurd h (by simp)
    · rw [if_neg hf] at h
      cases he : intoField s (field.take (field.length - 1)) with
      | error e => rw [he] at h; exact absurd h (by simp [Except.map])
      | ok f0 =>
        rw [he] at h
        have : f = f0 ++ [0] := by
          have : Except.ok (ε := BasicTarError) (f0 ++ [0]) = Except.ok f := h
          exact (Except.ok.inj this).symm
        rw [this, List.getLast?_concat]
  · intro data r1 r2 hsp hnul
    have hnosp : ∀ a ∈ data, (fun b => b == 32) a = false := by
      intro a ha
      simp only [beq_eq_false_iff_ne, ne_eq]
      exact fun he => hsp (he ▸ ha)
    constructor
    · unfold fromTerminatedField
      have hidx : List.findIdx (fun b => b == 32) (data ++ 32 :: r1) = data.length := by
        rw [findIdx_append_of_none _ hnosp]
        simp [List.findIdx_cons]
      rw [hidx, List.take_left]
    · unfold fromTerminatedField
      have hidx : List.findIdx (fun b => b == 32) (data ++ 0 :: r2) =
          data.length + (List.findIdx (fun b => b == 32) r2 + 1) := by
        rw [findIdx_append_of_none _ hnosp]
        simp [List.findIdx_cons]
      rw [hidx, List.take_append]
      have : List.take (List.findIdx (fun b => b == 32) r2 + 1) (0 :: r2) =
          0 :: List.take (List.findIdx (fun b => b == 32) r2) r2 := rfl
      rw [this]
      exact fromField_append_nul _ hnul

/-- Witness for C7: a concrete successful encode ends in NUL, and concrete
space- and NUL-terminated fields decode alike. -/
theorem terminated_field_terminator_witness :
    ([65, 0, 0, 0, 0, 0, 0, 0] : List Nat).getLast? = some 0 ∧
    fromTerminatedField ([49] ++ 32 :: [50]) = fromField [49] ∧
    fromTerminatedField ([49] ++ 0 :: [51]) = fromField [49] :=
  ⟨terminated_field_terminator.1 (some [65]) (List.replicate 8 0) _ rfl,
    (terminated_field_terminator.2 [49] [50] [51] (by decide) (by decide)).1,
    (terminated_field_terminator.2 [49] [50] [51] (by decide) (by decide)).2⟩

/-! ## C6: resumable exact read -/

/-- C6: `try_read_exact` retries interrupted reads without consuming buffer
space or invoking the callback, turns a zero-length read into an unexpected
EOF, propagates any other error immediately (keeping the bytes read so far,
with the callback total matching them), invokes the callback once per
successful read with that read's byte count, and on success fills the buffer
exactly with the delivered bytes in order. -/
theorem tryReadExact_spec :
    (∀ (script : List (Except IOErrorKind (List Nat))) (n : Nat),
      tryReadExact (Except.error IOErrorKind.interrupted :: script) n =
        tryReadExact script n) ∧
    (∀ (script : List (Except IOErrorKind (List Nat))) (n : Nat), 0 < n →
      tryReadExact (Except.ok [] :: script) n =
        some ⟨Except.error IOErrorKind.unexpectedEof, [], []⟩) ∧
    (∀ (e : IOErrorKind) (script : List (Except IOErrorKind (List Nat))) (n : Nat),
      e ≠ IOErrorKind.interrupted → 0 < n →
      tryReadExact (Except.error e :: script) n = some ⟨Except.error e, [], []⟩) ∧
    (∀ (data : List Nat) (script : List (Except IOErrorKind (List Nat))) (n : Nat),
      data ≠ [] → data.length ≤ n →
      tryReadExact (Except.ok data :: script) n =
        (tryReadExact script (n - data.length)).map
          (fun r => ⟨r.result, data ++ r.bytes, data.length :: r.calls⟩)) ∧
    (∀ (script : List (Except IOErrorKind (List Nat))) (n : Nat) (r : ReadResult),
      tryReadExact script n = some r → r.calls.sum = r.bytes.length) ∧
    ∀ (script : List (Except IOErrorKind (List Nat))) (n : Nat) (r : ReadResult),
      tryReadExact script n = some r → r.result = Except.ok () → r.bytes.length = n := by
  have hsum : ∀ (script : List (Except IOErrorKind (List Nat))) (n : Nat) (r : ReadResult),
      tryReadExact script n = some r →
      r.calls.sum = r.bytes.length ∧ (r.result = Except.ok () → r.bytes.length = n) := by
    intro script
    induction script with
    | nil =>
      intro n r h
      cases n with
      | zero =>
        simp only [tryReadExact, Option.some.injEq] at h
        subst h
        exact ⟨rfl, fun _ => rfl⟩
      | succ m => exact absurd h (by simp [tryReadExact])
    | cons o rest ih =>
      intro n r h
      cases n with
      | zero =>
        simp only [tryReadExact, Option.some.injEq] at h
        subst h
        exact ⟨rfl, fun _ => rfl⟩
      | succ m =>
        cases o with
        | error e =>
          cases e with
          | interrupted =>
            rw [show tryReadExact (Except.error IOErrorKind.interrupted :: rest) (m + 1) =
              tryReadExact rest (m + 1) from rfl] at h
            exact ⟨(ih _ _ h).1, (ih _ _ h).2⟩
          | unexpectedEof =>
            simp only [tryReadExact, Option.some.injEq] at h
            subst h
            exact ⟨rfl, by simp⟩
          | writeZero =>
            simp only [tryReadExact, Option.some.injEq] at h
            subst h
            exact ⟨rfl, by simp⟩
          | timedOut =>
            simp only [tryReadExact, Option.some.injEq] at h
            subst h
            exact ⟨rfl, by simp⟩
          | otherKind =>
            simp only [tryReadExact, Option.some.injEq] at h
            subst h
            exact ⟨rfl, by simp⟩
        | ok data =>
          by_cases hd : data.length = 0
          · simp only [tryReadExact, if_pos hd, Option.some.injEq] at h
            subst h
            exact ⟨rfl, by simp⟩
          · by_cases hle : data.length ≤ m + 1
            · simp only [tryReadExact, if_neg hd, if_pos hle] at h
              rw [Option.map_eq_some'] at h
              obtain ⟨r0, hr0, hf⟩ := h
              subst hf
              obtain ⟨ihs, ihr⟩ := ih _ _ hr0
              constructor
              · simp [List.sum_cons, List.length_append, ihs]
              · intro hres
                simp only [List.length_append, ihr hres]
                omega
            · simp [tryReadExact, if_neg hd, if_neg hle] at h
              obtain ⟨he, -⟩ := h
              exact absurd (by rw [he]; rfl) hd
  refine ⟨?_, ?_, ?_, ?_, fun s n r h => (hsum s n r h).1, fun s n r h => (hsum s n r h).2⟩
  · intro script n
    cases n with
    | zero => simp [tryReadExact]
    | succ m => rfl
  · intro script n hn
    cases n with
    | zero => exact absurd hn (by omega)
    | succ m => rfl
  · intro e script n he hn
    cases n with
    | zero => exact absurd hn (by omega)
    | succ m =>
      cases e with
      | interrupted => exact absurd rfl he
      | unexpectedEof => rfl
      | writeZero => rfl
      | timedOut => rfl
      | otherKind => rfl
  · intro data script n hd hle
    cases n with
    | zero =>
      have : data.length = 0 := by omega
      exact absurd (List.length_eq_zero.mp this) hd
    | succ m =>
      have hd0 : data.length ≠ 0 := fun h => hd (List.length_eq_zero.mp h)
      simp only [tryReadExact, if_neg hd0, if_pos hle]

/-- Witness for C6 at a concrete script: a two-byte read followed by a
one-byte read into a three-byte buffer. -/
theorem tryReadExact_spec_witness :
    tryReadExact [Except.ok [5, 6], Except.ok [7]] 3 =
      (tryReadExact [Except.ok [7]] 1).map
        (fun r => ⟨r.result, [5, 6] ++ r.bytes, 2 :: r.calls⟩) ∧
    ([2, 1] : List Nat).sum = ([5, 6, 7] : List Nat).length :=
  ⟨tryReadExact_spec.2.2.2.1 [5, 6] [Except.ok [7]] 3 (by decide) (by decide),
    tryReadExact_spec.2.2.2.2.1 [Except.ok [5, 6], Except.ok [7]] 3
      ⟨Except.ok (), [5, 6, 7], [2, 1]⟩ rfl⟩

/-! ## Octal representation lemmas -/

theorem octalReprAux_foldl (fuel : Nat) :
    ∀ n acc, n < fuel →
      (octalReprAux fuel n).foldl (fun a d => a * 8 + (d - 48)) acc =
        acc * 8 ^ (octalReprAux fuel n).length + n := by
  induction fuel with
  | zero => intro n acc h; omega
  | succ fuel ih =>
    intro n acc h
    by_cases h8 : n < 8
    · simp [octalReprAux, if_pos h8]
    · have hdiv : n / 8 < fuel := by
        have h1 : n / 8 < n := Nat.div_lt_self (by omega) (by omega)
        omega
      simp only [octalReprAux, if_neg h8, List.foldl_append, List.foldl_cons, List.foldl_nil,
        List.length_append, List.length_cons, List.length_nil]
      rw [ih (n / 8) acc hdiv]
      have hmod : 48 + n % 8 - 48 = n % 8 := by omega
      rw [hmod, pow_succ]
      have := Nat.div_add_mod n 8
      ring_nf
      omega

theorem octalReprAux_digits (fuel : Nat) :
    ∀ n, n < fuel → ∀ d ∈ octalReprAux fuel n, 48 ≤ d ∧ d ≤ 55 := by
  induction fuel with
  | zero => intro n h; omega
  | succ fuel ih =>
    intro n h d hd
    by_cases h8 : n < 8
    · simp [octalReprAux, if_pos h8] at hd
      omega
    · have hdiv : n / 8 < fuel := by
        have h1 : n / 8 < n := Nat.div_lt_self (by omega) (by omega)
        omega
      simp only [octalReprAux, if_neg h8, List.mem_append, List.mem_singleton] at hd
      rcases hd with hd | hd
      · exact ih (n / 8) hdiv d hd
      · have := Nat.mod_lt n (show 0 < 8 by omega)
        omega

theorem octalReprAux_ne_nil (fuel : Nat) :
    ∀ n, n < fuel → octalReprAux fuel n ≠ [] := by
  cases fuel with
  | zero => intro n h; omega
  | succ fuel =>
    intro n h
    by_cases h8 : n < 8
    · simp [octalReprAux, if_pos h8]
    · simp [octalReprAux, if_neg h8]

theorem octalReprAux_length_le (fuel : Nat) :
    ∀ n k, n < fuel → 0 < k → n < 8 ^ k → (octalReprAux fuel n).length ≤ k := by
  induction fuel with
  | zero => intro n k h; omega
  | succ fuel ih =>
    intro n k h hk hnk
    by_cases h8 : n < 8
    · simp [octalReprAux, if_pos h8]
      omega
    · have hdiv : n / 8 < fuel := by
        have h1 : n / 8 < n := Nat.div_lt_self (by omega) (by omega)
        omega
      have hk2 : 2 ≤ k := by
        by_contra hc
        have : k = 1 := by omega
        rw [this] at hnk
        simp [pow_one] at hnk
        omega
      have hq : n / 8 < 8 ^ (k - 1) := by
        rw [Nat.div_lt_iff_lt_mul (show 0 < 8 by omega)]
        have : 8 ^ (k - 1) * 8 = 8 ^ k := by
          rw [← pow_succ]
          congr 1
          omega
        omega
      simp only [octalReprAux, if_neg h8, List.length_append, List.length_cons,
        List.length_nil]
      have := ih (n / 8) (k - 1) hdiv (by omega) hq
      omega

theorem octalReprAux_length_ge (fuel : Nat) :
    ∀ n k, n < fuel → 8 ^ k ≤ n → k + 1 ≤ (octalReprAux fuel n).length := by
  induction fuel with
  | zero => intro n k h; omega
  | succ fuel ih =>
    intro n k h hkn
    by_cases h8 : n < 8
    · simp [octalReprAux, if_pos h8]
      by_contra hc
      have hk1 : 1 ≤ k := by omega
      have : 8 ^ 1 ≤ 8 ^ k := Nat.pow_le_pow_right (by omega) hk1
      simp [pow_one] at this
      omega
    · have hdiv : n / 8 < fuel := by
        have h1 : n / 8 < n := Nat.div_lt_self (by omega) (by omega)
        omega
      simp only [octalReprAux, if_neg h8, List.length_append, List.length_cons,
        List.length_nil]
      cases k with
      | zero =>
        have := octalReprAux_ne_nil fuel (n / 8) hdiv
        have : 0 < (octalReprAux fuel (n / 8)).length := List.length_pos.mpr this
        omega
      | succ k0 =>
        have hq : 8 ^ k0 ≤ n / 8 := by
          rw [Nat.le_div_iff_mul_le (show 0 < 8 by omega)]
          calc 8 ^ k0 * 8 = 8 ^ (k0 + 1) := by rw [pow_succ]
            _ ≤ n := hkn
        have := ih (n / 8) k0 hdiv hq
        omega

theorem octalRepr_foldl (n : Nat) :
    (octalRepr n).foldl (fun a d => a * 8 + (d - 48)) 0 = n := by
  have := octalReprAux_foldl (n + 1) n 0 (by omega)
  simpa [octalRepr] using this

theorem octalRepr_digits (n : Nat) : ∀ d ∈ octalRepr n, 48 ≤ d ∧ d ≤ 55 :=
  octalReprAux_digits (n + 1) n (by omega)

theorem octalRepr_ne_nil (n : Nat) : octalRepr n ≠ [] :=
  octalReprAux_ne_nil (n + 1) n (by omega)

theorem octalRepr_length_le {n k : Nat} (hk : 0 < k) (h : n < 8 ^ k) :
    (octalRepr n).length ≤ k :=
  octalReprAux_length_le (n + 1) n k (by omega) hk h

theorem octalRepr_length_ge {n k : Nat} (h : 8 ^ k ≤ n) :
    k + 1 ≤ (octalRepr n).length :=
  octalReprAux_length_ge (n + 1) n k (by omega) h

/-! ## Octal parsing lemmas -/

theorem octalFoldl_mono (l : List Nat) :
    ∀ acc : Nat, acc ≤ l.foldl (fun a d => a * 8 + (d - 48)) acc := by
  induction l with
  | nil => intro acc; exact Nat.le_refl acc
  | cons c rest ih =>
    intro acc
    calc acc ≤ acc * 8 + (c - 48) := by omega
      _ ≤ rest.foldl (fun a d => a * 8 + (d - 48)) (acc * 8 + (c - 48)) := ih _

theorem parseOctalDigits_ok (l : List Nat) :
    ∀ acc : Nat, (∀ d ∈ l, 48 ≤ d ∧ d ≤ 55) →
      l.foldl (fun a d => a * 8 + (d - 48)) acc < 2 ^ 64 →
      parseOctalDigits acc l = some (l.foldl (fun a d => a * 8 + (d - 48)) acc) := by
  induction l with
  | nil => intro acc _ _; rfl
  | cons c rest ih =>
    intro acc hd hb
    have hc : 48 ≤ c ∧ c ≤ 55 := hd c (by simp)
    have hstep : acc * 8 + (c - 48) ≤
        rest.foldl (fun a d => a * 8 + (d - 48)) (acc * 8 + (c - 48)) :=
      octalFoldl_mono rest _
    have hb2 : rest.foldl (fun a d => a * 8 + (d - 48)) (acc * 8 + (c - 48)) < 2 ^ 64 := by
      simpa [List.foldl_cons] using hb
    unfold parseOctalDigits
    rw [if_pos hc, if_pos (by omega)]
    rw [ih _ (fun d hdm => hd d (by simp [hdm])) hb2]
    simp [List.foldl_cons]

theorem octalFoldl_replicate_48 (p : Nat) :
    (List.replicate p 48).foldl (fun a d => a * 8 + (d - 48)) 0 = 0 := by
  induction p with
  | zero => rfl
  | succ q ih => simpa [List.replicate_succ, List.foldl_cons] using ih

theorem fromStrRadix8_digits {s : List Nat} (hne : s ≠ [])
    (hd : ∀ d ∈ s, 48 ≤ d ∧ d ≤ 55)
    (hb : s.foldl (fun a d => a * 8 + (d - 48)) 0 < 2 ^ 64) :
    fromStrRadix8 s = some (s.foldl (fun a d => a * 8 + (d - 48)) 0) := by
  cases s with
  | nil => exact absurd rfl hne
  | cons c rest =>
    have hc : 48 ≤ c ∧ c ≤ 55 := hd c (by simp)
    have hc43 : ¬ c = 43 := by omega
    simp only [fromStrRadix8]
    rw [if_neg hc43]
    exact parseOctalDigits_ok (c :: rest) 0 hd hb

/-! ## ASCII and trimming lemmas -/

theorem utf8DecodeAux_ascii (fuel : Nat) :
    ∀ l : List Nat, l.length ≤ fuel → (∀ b ∈ l, b ≤ 127) →
      utf8DecodeAux fuel l = some l := by
  induction fuel with
  | zero =>
    intro l hl h
    cases l with
    | nil => rfl
    | cons b t => simp at hl
  | succ fuel ih =>
    intro l hl h
    cases l with
    | nil => rfl
    | cons b t =>
      have hb : b ≤ 127 := h b (by simp)
      have hsplit : utf8SplitChar b t = some (b, t) := by
        unfold utf8SplitChar
        rw [if_pos hb]
      show (match utf8SplitChar b t with
        | some (c, rest2) => (utf8DecodeAux fuel rest2).map (fun cs => c :: cs)
        | none => none) = some (b :: t)
      rw [hsplit]
      show (utf8DecodeAux fuel t).map (fun cs => b :: cs) = some (b :: t)
      rw [ih t (by simp at hl; omega) (fun x hx => h x (List.mem_cons_of_mem b hx))]
      rfl

theorem utf8Decode_ascii (l : List Nat) (h : ∀ b ∈ l, b ≤ 127) :
    utf8Decode l = some l :=
  utf8DecodeAux_ascii l.length l (Nat.le_refl _) h

theorem utf8Encode_ascii (l : List Nat) (h : ∀ c ∈ l, c < 128) :
    utf8Encode l = l := by
  induction l with
  | nil => rfl
  | cons c rest ih =>
    have hc : c < 128 := h c (by simp)
    have ih2 : utf8Encode rest = rest := ih (fun x hx => h x (List.mem_cons_of_mem c hx))
    show (List.map utf8EncodeChar (c :: rest)).flatten = c :: rest
    rw [List.map_cons, List.flatten_cons,
      show utf8EncodeChar c = [c] from by unfold utf8EncodeChar; rw [if_pos hc],
      show (List.map utf8EncodeChar rest).flatten = rest from ih2]
    rfl

theorem trimEnd_digits {l : List Nat} (hd : ∀ d ∈ l, 48 ≤ d ∧ d ≤ 55) :
    trimEnd l = l := by
  unfold trimEnd
  rw [utf8Decode_ascii l (fun b hb => by have := hd b hb; omega)]
  cases hr : l.reverse with
  | nil =>
    have : l = [] := by simpa using congrArg List.reverse hr
    simp [this, utf8Encode]
  | cons a t =>
    have ha : a ∈ l := by
      have : a ∈ l.reverse := by rw [hr]; simp
      simpa using this
    have hna : isWhitespaceChar a = false := by
      have h48 := hd a ha
      simp [isWhitespaceChar]
      omega
    show utf8Encode ((List.dropWhile isWhitespaceChar l.reverse).reverse) = l
    rw [hr, List.dropWhile_cons, if_neg (by simp [hna]), ← hr, List.reverse_reverse]
    exact utf8Encode_ascii l (fun c hc => by have := hd c hc; omega)

/-! ## Octal field codec lemmas -/

theorem octal_encode_eq {v : Nat} {field : List Nat} (hf : 0 < field.length)
    (hlen : (octalRepr v).length ≤ field.length - 1) :
    optionIntoOctalField (some v) field =
      Except.ok (List.replicate (field.length - 1 - (octalRepr v).length) 48 ++
        octalRepr v ++ [0]) := by
  unfold optionIntoOctalField intoTerminatedField intoField
  rw [if_neg (by omega)]
  have htl : (field.take (field.length - 1)).length = field.length - 1 := by
    rw [List.length_take]
    omega
  have hpl : (List.replicate ((field.length - 1) - (octalRepr v).length) 48 ++
      octalRepr v).length = field.length - 1 := by
    rw [List.length_append, List.length_replicate]
    omega
  simp only [Option.map_some', Option.getD_some, htl]
  rw [if_neg (by omega)]
  simp only [Except.map, Option.getD_some]
  rw [List.take_left' hpl]

theorem octal_encode_fail {v : Nat} {field : List Nat}
    (hlen : field.length - 1 < (octalRepr v).length) :
    optionIntoOctalField (some v) field =
      Except.error (BasicTarError.ApiMisuse "`field` is too small to hold the value") := by
  unfold optionIntoOctalField intoTerminatedField intoField
  by_cases hf : field.length = 0
  · rw [if_pos hf]
  · rw [if_neg hf]
    have hpad : (field.length - 1) - (octalRepr v).length = 0 := by omega
    have htl : (field.take (field.length - 1)).length = field.length - 1 := by
      rw [List.length_take]
      omega
    simp only [Option.map_some', Option.getD_some, hpad, List.replicate_zero,
      List.nil_append, htl]
    rw [if_pos (by omega)]
    rfl

theorem octal_decode_eq {v p : Nat} (hv : v < 2 ^ 64) :
    optionFromOctalField (List.replicate p 48 ++ octalRepr v ++ [0]) =
      Except.ok (some v) := by
  have hdig : ∀ d ∈ List.replicate p 48 ++ octalRepr v, 48 ≤ d ∧ d ≤ 55 := by
    intro d hdm
    rcases List.mem_append.mp hdm with hdm | hdm
    · have := List.eq_of_mem_replicate hdm
      omega
    · exact octalRepr_digits v d hdm
  have hne : List.replicate p 48 ++ octalRepr v ≠ [] := by
    intro hc
    exact octalRepr_ne_nil v (List.append_eq_nil.mp hc).2
  have hfold : (List.replicate p 48 ++ octalRepr v).foldl
      (fun a d => a * 8 + (d - 48)) 0 = v := by
    rw [List.foldl_append, octalFoldl_replicate_48, octalRepr_foldl]
  have hterm : fromTerminatedField (List.replicate p 48 ++ octalRepr v ++ [0]) =
      Except.ok (some (List.replicate p 48 ++ octalRepr v)) := by
    unfold fromTerminatedField
    have hno32 : ∀ a ∈ List.replicate p 48 ++ octalRepr v ++ [0],
        (fun b => b == 32) a = false := by
      intro a ha
      simp only [beq_eq_false_iff_ne, ne_eq]
      rcases List.mem_append.mp ha with ha | ha
      · have := hdig a ha
        omega
      · simp at ha
        omega
    rw [findIdx_eq_length_of_none hno32, List.take_length]
    unfold fromField
    have hno0 : ∀ a ∈ List.replicate p 48 ++ octalRepr v,
        (fun b => b == 0) a = false := by
      intro a ha
      simp only [beq_eq_false_iff_ne, ne_eq]
      have := hdig a ha
      omega
    have hidx : List.findIdx (fun b => b == 0)
        (List.replicate p 48 ++ octalRepr v ++ [0]) =
        (List.replicate p 48 ++ octalRepr v).length := by
      rw [findIdx_append_of_none _ hno0]
      simp [List.findIdx_cons]
    simp only [hidx, List.take_left]
    rw [if_neg (by simp [List.isEmpty_iff, hne])]
    rw [utf8Decode_ascii _ (fun b hb => by have := hdig b hb; omega)]
  have hcont : optionFromOctalField (List.replicate p 48 ++ octalRepr v ++ [0]) =
      (if (trimEnd (List.replicate p 48 ++ octalRepr v)).length > 0 then
        match fromStrRadix8 (trimEnd (List.replicate p 48 ++ octalRepr v)) with
        | some num => Except.ok (some num)
        | none => Except.error (BasicTarError.InvalidData "Invalid octal number")
      else Except.ok none) := by
    unfold optionFromOctalField
    rw [hterm]
    rfl
  rw [hcont, trimEnd_digits hdig]
  rw [if_pos (by
    have : 0 < (List.replicate p 48 ++ octalRepr v).length :=
      List.length_pos.mpr hne
    omega)]
  rw [fromStrRadix8_digits hne hdig (by rw [hfold]; exact hv), hfold]

/-! ## C5: octal round-trip and overflow rejection -/

/-- C5: for field widths 8 and 12, any value with at most `W-1` octal digits
encodes and decodes back to itself, and any value needing more digits fails
to encode. -/
theorem octal_field_roundtrip :
    ∀ W : Nat, W = 8 ∨ W = 12 →
      (∀ v : Nat, v < 8 ^ (W - 1) →
        (optionIntoOctalField (some v) (List.replicate W 0)).bind optionFromOctalField =
          Except.ok (some v)) ∧
      ∀ v : Nat, 8 ^ (W - 1) ≤ v →
        optionIntoOctalField (some v) (List.replicate W 0) =
          Except.error (BasicTarError.ApiMisuse "`field` is too small to hold the value") := by
  intro W hW
  have hWpos : 0 < W := by rcases hW with h | h <;> omega
  have hW1 : 0 < W - 1 := by rcases hW with h | h <;> omega
  constructor
  · intro v hv
    have hlen : (octalRepr v).length ≤ W - 1 := octalRepr_length_le hW1 hv
    have hflen : (List.replicate W (0 : Nat)).length = W := List.length_replicate W 0
    rw [octal_encode_eq (by omega) (by omega)]
    have hv64 : v < 2 ^ 64 := by
      have h1 : (8 : Nat) ^ (W - 1) ≤ 8 ^ 11 := by
        apply Nat.pow_le_pow_right (by omega)
        rcases hW with h | h <;> omega
      have h2 : (8 : Nat) ^ 11 < 2 ^ 64 := by norm_num
      omega
    rw [hflen]
    exact octal_decode_eq hv64
  · intro v hv
    have hlen : W ≤ (octalRepr v).length := by
      have := octalRepr_length_ge hv
      omega
    apply octal_encode_fail
    rw [List.length_replicate]
    omega

/-- Witness for C5: width 8 with the values 0 (fits) and `8^7` (one digit too
many). -/
theorem octal_field_roundtrip_witness :
    (optionIntoOctalField (some 0) (List.replicate 8 0)).bind optionFromOctalField =
      Except.ok (some 0) ∧
    optionIntoOctalField (some (8 ^ 7)) (List.replicate 8 0) =
      Except.error (BasicTarError.ApiMisuse "`field` is too small to hold the value") :=
  ⟨(octal_field_roundtrip 8 (Or.inl rfl)).1 0 (by decide),
    (octal_field_roundtrip 8 (Or.inl rfl)).2 (8 ^ 7) (Nat.le_refl _)⟩

/-! ## Raw header block lemmas -/

theorem foldl_add_eq_sum (l : List Nat) : ∀ acc : Nat,
    l.foldl (fun sum byte => sum + byte) acc = acc + l.sum := by
  induction l with
  | nil => intro acc; simp
  | cons b t ih =>
    intro acc
    rw [List.foldl_cons, ih, List.sum_cons]
    omega

theorem take_add_append {l₁ l₂ : List Nat} (n i : Nat) (h : l₁.length = n) :
    (l₁ ++ l₂).take (n + i) = l₁ ++ l₂.take i := by
  subst h
  exact List.take_append i

theorem drop_add_append {l₁ l₂ : List Nat} (n i : Nat) (h : l₁.length = n) :
    (l₁ ++ l₂).drop (n + i) = l₂.drop i := by
  subst h
  exact List.drop_append i

theorem toRaw_length (t : RawHeader) (h : t.lengthsOk) : t.toRaw.length = 512 := by
  obtain ⟨h1, h2, h3, h4, h5, h6, h7, h8, h9, h10, h11⟩ := h
  unfold RawHeader.toRaw
  simp [List.length_append, h1, h2, h3, h4, h5, h6, h7, h8, h9, h10, h11]

theorem toRaw_take_148 (t : RawHeader) (h : t.lengthsOk) :
    t.toRaw.take 148 =
      t.name ++ (t.mode ++ (t.uid ++ (t.gid ++ (t.size ++ t.mtime)))) := by
  obtain ⟨h1, h2, h3, h4, h5, h6, h7, h8, h9, h10, h11⟩ := h
  unfold RawHeader.toRaw
  rw [show (148 : Nat) = 100 + 48 from rfl, take_add_append _ _ h1]
  rw [show (48 : Nat) = 8 + 40 from rfl, take_add_append _ _ h2]
  rw [show (40 : Nat) = 8 + 32 from rfl, take_add_append _ _ h3]
  rw [show (32 : Nat) = 8 + 24 from rfl, take_add_append _ _ h4]
  rw [show (24 : Nat) = 12 + 12 from rfl, take_add_append _ _ h5]
  rw [List.take_left' h6]

theorem toRaw_drop_156 (t : RawHeader) (h : t.lengthsOk) :
    t.toRaw.drop 156 = t.typeflag ++ (t.linkname ++ (t.extra ++ t.pad)) := by
  obtain ⟨h1, h2, h3, h4, h5, h6, h7, h8, h9, h10, h11⟩ := h
  unfold RawHeader.toRaw
  rw [show (156 : Nat) = 100 + 56 from rfl, drop_add_append _ _ h1]
  rw [show (56 : Nat) = 8 + 48 from rfl, drop_add_append _ _ h2]
  rw [show (48 : Nat) = 8 + 40 from rfl, drop_add_append _ _ h3]
  rw [show (40 : Nat) = 8 + 32 from rfl, drop_add_append _ _ h4]
  rw [show (32 : Nat) = 12 + 20 from rfl, drop_add_append _ _ h5]
  rw [show (20 : Nat) = 12 + 8 from rfl, drop_add_append _ _ h6]
  rw [List.drop_left' h7]

theorem compute_formula (t : RawHeader) (h : t.lengthsOk) :
    Checksum.compute t =
      t.name.sum + t.mode.sum + t.uid.sum + t.gid.sum + t.size.sum + t.mtime.sum +
      256 + t.typeflag.sum + t.linkname.sum + t.extra.sum + t.pad.sum := by
  unfold Checksum.compute
  rw [toRaw_take_148 t h, toRaw_drop_156 t h, foldl_add_eq_sum]
  simp only [List.sum_append, List.sum_replicate, smul_eq_mul, Nat.zero_add]
  omega

theorem compute_set_checksum (t : RawHeader) (cs : List Nat) (h : t.lengthsOk)
    (hcs : cs.length = 8) :
    Checksum.compute { t with checksum := cs } = Checksum.compute t := by
  obtain ⟨h1, h2, h3, h4, h5, h6, h7, h8, h9, h10, h11⟩ := h
  have h2ok : ({ t with checksum := cs } : RawHeader).lengthsOk :=
    ⟨h1, h2, h3, h4, h5, h6, hcs, h8, h9, h10, h11⟩
  rw [compute_formula _ h2ok, compute_formula _ ⟨h1, h2, h3, h4, h5, h6, h7, h8, h9, h10, h11⟩]

theorem fromRaw_toRaw (t : RawHeader) (h : t.lengthsOk) :
    RawHeader.fromRaw t.toRaw = t := by
  obtain ⟨h1, h2, h3, h4, h5, h6, h7, h8, h9, h10, h11⟩ := h
  have t100 : t.toRaw.take 100 = t.name := by
    unfold RawHeader.toRaw
    exact List.take_left' h1
  have d100 : t.toRaw.drop 100 = t.mode ++ (t.uid ++ (t.gid ++ (t.size ++ (t.mtime ++
      (t.checksum ++ (t.typeflag ++ (t.linkname ++ (t.extra ++ t.pad)))))))) := by
    unfold RawHeader.toRaw
    exact List.drop_left' h1
  have d108 : t.toRaw.drop 108 = t.uid ++ (t.gid ++ (t.size ++ (t.mtime ++
      (t.checksum ++ (t.typeflag ++ (t.linkname ++ (t.extra ++ t.pad))))))) := by
    rw [show (108 : Nat) = 100 + 8 from rfl, ← List.drop_drop, d100]
    exact List.drop_left' h2
  have d116 : t.toRaw.drop 116 = t.gid ++ (t.size ++ (t.mtime ++
      (t.checksum ++ (t.typeflag ++ (t.linkname ++ (t.extra ++ t.pad)))))) := by
    rw [show (116 : Nat) = 108 + 8 from rfl, ← List.drop_drop, d108]
    exact List.drop_left' h3
  have d124 : t.toRaw.drop 124 = t.size ++ (t.mtime ++
      (t.checksum ++ (t.typeflag ++ (t.linkname ++ (t.extra ++ t.pad))))) := by
    rw [show (124 : Nat) = 116 + 8 from rfl, ← List.drop_drop, d116]
    exact List.drop_left' h4
  have d136 : t.toRaw.drop 136 = t.mtime ++
      (t.checksum ++ (t.typeflag ++ (t.linkname ++ (t.extra ++ t.pad)))) := by
    rw [show (136 : Nat) = 124 + 12 from rfl, ← List.drop_drop, d124]
    exact List.drop_left' h5
  have d148 : t.toRaw.drop 148 =
      t.checksum ++ (t.typeflag ++ (t.linkname ++ (t.extra ++ t.pad))) := by
    rw [show (148 : Nat) = 136 + 12 from rfl, ← List.drop_drop, d136]
    exact List.drop_left' h6
  have d156 : t.toRaw.drop 156 = t.typeflag ++ (t.linkname ++ (t.extra ++ t.pad)) := by
    rw [show (156 : Nat) = 148 + 8 from rfl, ← List.drop_drop, d148]
    exact List.drop_left' h7
  have d157 : t.toRaw.drop 157 = t.linkname ++ (t.extra ++ t.pad) := by
    rw [show (157 : Nat) = 156 + 1 from rfl, ← List.drop_drop, d156]
    exact List.drop_left' h8
  have d257 : t.toRaw.drop 257 = t.extra ++ t.pad := by
    rw [show (257 : Nat) = 157 + 100 from rfl, ← List.drop_drop, d157]
    exact List.drop_left' h9
  have d500 : t.toRaw.drop 500 = t.pad := by
    rw [show (500 : Nat) = 257 + 243 from rfl, ← List.drop_drop, d257]
    exact List.drop_left' h10
  unfold RawHeader.fromRaw
  rw [t100, d100, List.take_left' h2, d108, List.take_left' h3, d116, List.take_left' h4,
    d124, List.take_left' h5, d136, List.take_left' h6, d148, List.take_left' h7,
    d156, List.take_left' h8, d157, List.take_left' h9, d257, List.take_left' h10,
    d500, ← h11, List.take_length]

theorem toRaw_fromRaw (data : List Nat) (h : data.length = 512) :
    (RawHeader.fromRaw data).toRaw = data := by
  have step : ∀ off w off2 : Nat, off2 = off + w →
      (data.drop off).take w ++ data.drop off2 = data.drop off := by
    intro off w off2 h2
    rw [h2, ← List.drop_drop]
    exact List.take_append_drop w (data.drop off)
  have hpad : (data.drop 500).take 12 = data.drop 500 := by
    apply List.take_of_length_le
    rw [List.length_drop, h]
  unfold RawHeader.toRaw RawHeader.fromRaw
  rw [hpad]
  rw [step 257 243 500 (by norm_num)]
  rw [step 157 100 257 (by norm_num)]
  rw [step 156 1 157 (by norm_num)]
  rw [step 148 8 156 (by norm_num)]
  rw [step 136 12 148 (by norm_num)]
  rw [step 124 12 136 (by norm_num)]
  rw [step 116 8 124 (by norm_num)]
  rw [step 108 8 116 (by norm_num)]
  rw [step 100 8 108 (by norm_num)]
  exact List.take_append_drop 100 data

theorem fromRaw_lengthsOk (data : List Nat) (h : data.length = 512) :
    (RawHeader.fromRaw data).lengthsOk := by
  unfold RawHeader.fromRaw RawHeader.lengthsOk
  refine ⟨?_, ?_, ?_, ?_, ?_, ?_, ?_, ?_, ?_, ?_, ?_⟩ <;>
    simp [List.length_take, List.length_drop, h]

theorem compute_le (t : RawHeader) (h : t.lengthsOk) (hb : ∀ b ∈ t.toRaw, b ≤ 255) :
    Checksum.compute t ≤ 130560 := by
  unfold Checksum.compute
  rw [foldl_add_eq_sum]
  have hlen : t.toRaw.length = 512 := toRaw_length t h
  have h148 : (t.toRaw.take 148).sum ≤ 37740 := by
    have hs := List.sum_le_card_nsmul (t.toRaw.take 148) 255
      (fun x hx => hb x (List.mem_of_mem_take hx))
    rw [List.length_take, hlen] at hs
    simp only [smul_eq_mul] at hs
    omega
  have h356 : (t.toRaw.drop 156).sum ≤ 90780 := by
    have hs := List.sum_le_card_nsmul (t.toRaw.drop 156) 255
      (fun x hx => hb x (List.mem_of_mem_drop hx))
    rw [List.length_drop, hlen] at hs
    simp only [smul_eq_mul] at hs
    omega
  have hrep : (List.replicate 8 (32 : Nat)).sum = 256 := by
    rw [List.sum_replicate, smul_eq_mul]
  simp only [List.sum_append, Nat.zero_add, hrep]
  omega

/-! ## C8: writing the checksum never fails -/

/-- C8: for a well-formed raw header block the computed checksum is at most
`512 * 255 = 130560`, so its octal form fits the 8-byte checksum field and
`Checksum::write` always succeeds (the panic is unreachable). -/
theorem checksum_write_total (t : RawHeader) (h : t.lengthsOk)
    (hb : ∀ b ∈ t.toRaw, b ≤ 255) :
    Checksum.compute t ≤ 130560 ∧ exceptIsOk (Checksum.write t) = true := by
  have hc := compute_le t h hb
  refine ⟨hc, ?_⟩
  have h87 : (8 : Nat) ^ 7 = 2097152 := by norm_num
  have hlen7 : (octalRepr (Checksum.compute t)).length ≤ 7 :=
    octalRepr_length_le (by omega) (by omega)
  have hcs : t.checksum.length = 8 := h.2.2.2.2.2.2.1
  unfold Checksum.write u64IntoOctalField
  rw [octal_encode_eq (by omega) (by omega)]
  rfl

set_option maxRecDepth 10000 in
/-- Witness for C8 at the all-zero raw header. -/
theorem checksum_write_total_witness :
    exceptIsOk (Checksum.write zeroRawHeader) = true :=
  (checksum_write_total zeroRawHeader
    ⟨rfl, rfl, rfl, rfl, rfl, rfl, rfl, rfl, rfl, rfl, rfl⟩ (by decide)).2

/-! ## C3: checksum computation and verification -/

theorem checksumSpec_piece_low (A : List Nat) (hA : A.length ≤ 148) :
    (A.enum.map (fun p => if 148 ≤ p.1 ∧ p.1 < 156 then 32 else p.2)).sum = A.sum := by
  have hcongr : A.enum.map (fun p => if 148 ≤ p.1 ∧ p.1 < 156 then 32 else p.2) =
      A.enum.map Prod.snd := by
    apply List.map_congr_left
    intro p hp
    obtain ⟨i, x⟩ := p
    have hmem := List.mem_enumFrom hp
    rw [if_neg (by omega)]
  rw [hcongr, List.enum_map_snd]

theorem checksumSpec_piece_mid (B : List Nat) (n : Nat) (hn : 148 ≤ n)
    (hend : n + B.length ≤ 156) :
    ((List.enumFrom n B).map (fun p => if 148 ≤ p.1 ∧ p.1 < 156 then 32 else p.2)).sum =
      B.length * 32 := by
  have hcongr : (List.enumFrom n B).map
      (fun p => if 148 ≤ p.1 ∧ p.1 < 156 then 32 else p.2) =
      (List.enumFrom n B).map (fun _ => 32) := by
    apply List.map_congr_left
    intro p hp
    obtain ⟨i, x⟩ := p
    have hmem := List.mem_enumFrom hp
    rw [if_pos (by omega)]
  rw [hcongr, List.map_const', List.sum_replicate, smul_eq_mul]
  have hlen : (List.enumFrom n B).length = B.length := by simp
  rw [hlen]

theorem checksumSpec_piece_high (C : List Nat) (n : Nat) (hn : 156 ≤ n) :
    ((List.enumFrom n C).map (fun p => if 148 ≤ p.1 ∧ p.1 < 156 then 32 else p.2)).sum =
      C.sum := by
  have hcongr : (List.enumFrom n C).map
      (fun p => if 148 ≤ p.1 ∧ p.1 < 156 then 32 else p.2) =
      (List.enumFrom n C).map Prod.snd := by
    apply List.map_congr_left
    intro p hp
    obtain ⟨i, x⟩ := p
    have hmem := List.mem_enumFrom hp
    rw [if_neg (by omega)]
  rw [hcongr, List.enumFrom_map_snd]

theorem checksumSpec_decomp (A B C : List Nat) (hA : A.length = 148) (hB : B.length = 8) :
    checksumSpec (A ++ (B ++ C)) = A.sum + 256 + C.sum := by
  unfold checksumSpec
  rw [List.enum_append, hA, List.enumFrom_append, List.map_append, List.map_append,
    List.sum_append, List.sum_append]
  rw [checksumSpec_piece_low A (by omega), checksumSpec_piece_mid B 148 (by omega) (by omega),
    checksumSpec_piece_high C (148 + B.length) (by omega)]
  omega

/-- C3: for every 512-byte block, the computed checksum is the 64-bit sum of
all bytes with the checksum field treated as eight spaces, and verification
succeeds exactly when that sum equals the octal-decoded stored checksum,
failing otherwise with the "Invalid header checksum" invalid-data error. -/
theorem checksum_compute_verify_correct :
    ∀ raw : List Nat, raw.length = 512 → (∀ b ∈ raw, b ≤ 255) →
      (Checksum.compute (RawHeader.fromRaw raw) = checksumSpec raw ∧
        checksumSpec raw < 2 ^ 64) ∧
      ∀ v : Nat, u64FromOctalField (RawHeader.fromRaw raw).checksum = Except.ok v →
        (Checksum.verify (RawHeader.fromRaw raw) = Except.ok () ↔ checksumSpec raw = v) ∧
        (checksumSpec raw ≠ v → Checksum.verify (RawHeader.fromRaw raw) =
          Except.error (BasicTarError.InvalidData "Invalid header checksum")) := by
  intro raw hlen hb
  have hsplit : raw = raw.take 148 ++ ((raw.drop 148).take 8 ++ raw.drop 156) := by
    have hinner : (raw.drop 148).take 8 ++ raw.drop 156 = raw.drop 148 := by
      rw [show (156 : Nat) = 148 + 8 from rfl, ← List.drop_drop]
      exact List.take_append_drop 8 (raw.drop 148)
    rw [hinner, List.take_append_drop]
  have hA : (raw.take 148).length = 148 := by
    rw [List.length_take, hlen]
    omega
  have hB : ((raw.drop 148).take 8).length = 8 := by
    rw [List.length_take, List.length_drop, hlen]
    omega
  have hcompute : Checksum.compute (RawHeader.fromRaw raw) = checksumSpec raw := by
    unfold Checksum.compute
    rw [toRaw_fromRaw raw hlen, foldl_add_eq_sum]
    conv_rhs => rw [hsplit]
    rw [checksumSpec_decomp _ _ _ hA hB]
    have hrep : (List.replicate 8 (32 : Nat)).sum = 256 := by
      rw [List.sum_replicate, smul_eq_mul]
    simp only [List.sum_append, Nat.zero_add, hrep]
  have hspec_lt : checksumSpec raw < 2 ^ 64 := by
    rw [← hcompute]
    have hfr : (RawHeader.fromRaw raw).lengthsOk := fromRaw_lengthsOk raw hlen
    have hle := compute_le (RawHeader.fromRaw raw) hfr
      (by rw [toRaw_fromRaw raw hlen]; exact hb)
    have h64 : (2 : Nat) ^ 64 = 18446744073709551616 := by norm_num
    omega
  refine ⟨⟨hcompute, hspec_lt⟩, ?_⟩
  intro v hdec
  have hver : Checksum.verify (RawHeader.fromRaw raw) =
      (if Checksum.compute (RawHeader.fromRaw raw) = v then Except.ok ()
        else Except.error (BasicTarError.InvalidData "Invalid header checksum")) := by
    unfold Checksum.verify
    rw [hdec]
    rfl
  rw [hver, hcompute]
  by_cases hc : checksumSpec raw = v
  · rw [if_pos hc]
    exact ⟨⟨fun _ => hc, fun _ => rfl⟩, fun hne => absurd hc hne⟩
  · rw [if_neg hc]
    exact ⟨⟨fun he => absurd he (by simp), fun hcc => absurd hcc hc⟩, fun _ => rfl⟩

set_option maxRecDepth 100000 in
/-- Witness for C3 at a concrete block whose checksum field stores the octal
digits of 0 while the block sums to 256. -/
theorem checksum_compute_verify_correct_witness :
    Checksum.verify (RawHeader.fromRaw (List.replicate 148 0 ++
        [48, 48, 48, 48, 48, 48, 48, 0] ++ List.replicate 356 0)) =
      Except.error (BasicTarError.InvalidData "Invalid header checksum") :=
  ((checksum_compute_verify_correct
      (List.replicate 148 0 ++ [48, 48, 48, 48, 48, 48, 48, 0] ++ List.replicate 356 0)
      (by decide) (by decide)).2 0 (by decide)).2 (by decide)

/-! ## Bind reduction and UTF-8 byte bounds -/

theorem ok_bind {α β : Type} (a : α) (f : α → Except BasicTarError β) :
    (Except.ok a >>= f) = f a := rfl

theorem utf8SplitChar_le (b : Nat) (rest : List Nat) (c : Nat) (rest2 : List Nat)
    (h : utf8SplitChar b rest = some (c, rest2)) :
    b ≤ 255 ∧ ∃ pre, rest = pre ++ rest2 ∧ ∀ x ∈ pre, x ≤ 255 := by
  unfold utf8SplitChar at h
  by_cases h1 : b ≤ 127
  · rw [if_pos h1] at h
    simp only [Option.some.injEq, Prod.mk.injEq] at h
    exact ⟨by omega, [], by simp [h.2], by simp⟩
  · rw [if_neg h1] at h
    by_cases h2 : 194 ≤ b ∧ b ≤ 223
    · rw [if_pos h2] at h
      cases rest with
      | nil => simp [utf8Split2] at h
      | cons b1 r1 =>
        simp only [utf8Split2] at h
        by_cases hb1 : 128 ≤ b1 ∧ b1 ≤ 191
        · rw [if_pos hb1] at h
          simp only [Option.some.injEq, Prod.mk.injEq] at h
          refine ⟨by omega, [b1], by simp [h.2], ?_⟩
          intro x hx
          simp at hx
          omega
        · rw [if_neg hb1] at h
          simp at h
    · rw [if_neg h2] at h
      by_cases h3 : 224 ≤ b ∧ b ≤ 239
      · rw [if_pos h3] at h
        match rest with
        | [] => simp [utf8Split3] at h
        | [b1] => simp [utf8Split3] at h
        | b1 :: b2 :: r2 =>
          simp only [utf8Split3] at h
          by_cases hb12 : utf8Cont2Lo b ≤ b1 ∧ b1 ≤ utf8Cont2Hi b ∧ 128 ≤ b2 ∧ b2 ≤ 191
          · rw [if_pos hb12] at h
            simp only [Option.some.injEq, Prod.mk.injEq] at h
            have hb1le : b1 ≤ 191 := by
              have := hb12.2.1
              unfold utf8Cont2Hi at this
              by_cases he : b = 237 <;> simp [he] at this <;> omega
            refine ⟨by omega, [b1, b2], by simp [h.2], ?_⟩
            intro x hx
            simp at hx
            rcases hx with rfl | rfl <;> omega
          · rw [if_neg hb12] at h
            simp at h
      · rw [if_neg h3] at h
        by_cases h4 : 240 ≤ b ∧ b ≤ 244
        · rw [if_pos h4] at h
          match rest with
          | [] => simp [utf8Split4] at h
          | [b1] => simp [utf8Split4] at h
          | [b1, b2] => simp [utf8Split4] at h
          | b1 :: b2 :: b3 :: r3 =>
            simp only [utf8Split4] at h
            by_cases hb13 : utf8Cont3Lo b ≤ b1 ∧ b1 ≤ utf8Cont3Hi b ∧ 128 ≤ b2 ∧
                b2 ≤ 191 ∧ 128 ≤ b3 ∧ b3 ≤ 191
            · rw [if_pos hb13] at h
              simp only [Option.some.injEq, Prod.mk.injEq] at h
              have hb1le : b1 ≤ 191 := by
                have := hb13.2.1
                unfold utf8Cont3Hi at this
                by_cases he : b = 244 <;> simp [he] at this <;> omega
              refine ⟨by omega, [b1, b2, b3], by simp [h.2], ?_⟩
              intro x hx
              simp at hx
              rcases hx with rfl | rfl | rfl <;> omega
            · rw [if_neg hb13] at h
              simp at h
        · rw [if_neg h4] at h
          simp at h

theorem utf8DecodeAux_bytes_le (fuel : Nat) :
    ∀ (l cs : List Nat), utf8DecodeAux fuel l = some cs → ∀ x ∈ l, x ≤ 255 := by
  induction fuel with
  | zero =>
    intro l cs h x hx
    cases l with
    | nil => simp at hx
    | cons b t => simp [utf8DecodeAux] at h
  | succ fuel ih =>
    intro l cs h x hx
    cases l with
    | nil => simp at hx
    | cons b rest =>
      cases hsp : utf8SplitChar b rest with
      | none =>
        simp only [utf8DecodeAux, hsp] at h
        exact absurd h (by simp)
      | some pair =>
        obtain ⟨c, rest2⟩ := pair
        simp only [utf8DecodeAux, hsp] at h
        rw [Option.map_eq_some'] at h
        obtain ⟨cs2, hcs2, -⟩ := h
        obtain ⟨hb, pre, hrest, hpre⟩ := utf8SplitChar_le b rest c rest2 hsp
        rcases List.mem_cons.mp hx with rfl | hx2
        · exact hb
        · rw [hrest] at hx2
          rcases List.mem_append.mp hx2 with hx3 | hx3
          · exact hpre x hx3
          · exact ih rest2 cs2 hcs2 x hx3

theorem utf8_valid_bytes_le {l : List Nat} (h : (utf8Decode l).isSome) :
    ∀ x ∈ l, x ≤ 255 := by
  obtain ⟨cs, hcs⟩ := Option.isSome_iff_exists.mp h
  exact utf8DecodeAux_bytes_le l.length l cs hcs

/-! ## Field content lemmas -/

theorem octField_encode {v W : Nat} (hW : 0 < W) (hlen : (octalRepr v).length ≤ W - 1) :
    optionIntoOctalField (some v) (List.replicate W 0) = Except.ok (octField W v) := by
  rw [octal_encode_eq (by rw [List.length_replicate]; omega)
    (by rw [List.length_replicate]; omega)]
  rw [List.length_replicate]
  rfl

theorem octField_decode (W : Nat) {v : Nat} (hv : v < 2 ^ 64) :
    optionFromOctalField (octField W v) = Except.ok (some v) :=
  octal_decode_eq hv

theorem octField_u64_decode (W : Nat) {v : Nat} (hv : v < 2 ^ 64) :
    u64FromOctalField (octField W v) = Except.ok v := by
  unfold u64FromOctalField
  rw [octField_decode W hv]
  rfl

theorem octField_length {v W : Nat} (hW : 0 < W) (hlen : (octalRepr v).length ≤ W - 1) :
    (octField W v).length = W := by
  unfold octField
  simp only [List.length_append, List.length_replicate, List.length_cons, List.length_nil]
  omega

theorem octField_bytes (W v : Nat) : ∀ b ∈ octField W v, b ≤ 255 := by
  intro b hb
  unfold octField at hb
  rcases List.mem_append.mp hb with h | h
  · rcases List.mem_append.mp h with h2 | h2
    · have := List.eq_of_mem_replicate h2
      omega
    · have := octalRepr_digits v b h2
      omega
  · simp at h
    omega

theorem strField_length {s : List Nat} {W : Nat} (h : s.length ≤ W) :
    (strField W s).length = W := by
  unfold strField
  simp only [List.length_append, List.length_replicate]
  omega

theorem strField_bytes {s : List Nat} (W : Nat) (hs : ∀ b ∈ s, b ≤ 255) :
    ∀ b ∈ strField W s, b ≤ 255 := by
  intro b hb
  unfold strField at hb
  rcases List.mem_append.mp hb with h | h
  · exact hs b h
  · have := List.eq_of_mem_replicate h
    omega

theorem intoField_some_ok {s field : List Nat} (h : s.length ≤ field.length) :
    intoField (some s) field = Except.ok (strField field.length s) := by
  unfold intoField strField
  rw [if_neg (by simp only [Option.map_some', Option.getD_some]; omega)]
  simp only [Option.getD_some]
  obtain ⟨k, hk⟩ : ∃ k, field.length = s.length + k := ⟨field.length - s.length, by omega⟩
  rw [hk, take_add_append s.length k rfl, List.take_replicate]
  have h1 : k ⊓ (s.length + k) = k := by omega
  have h2 : s.length + k - s.length = k := by omega
  rw [h1, h2]

theorem intoField_none_ok (field : List Nat) :
    intoField none field = Except.ok (List.replicate field.length 0) := by
  unfold intoField
  rw [if_neg (by simp)]
  simp only [Option.getD_none, List.nil_append, List.take_replicate]
  rw [show field.length ⊓ field.length = field.length from by omega]

theorem fromField_data_pad {data : List Nat} (k : Nat) (hnn : ¬ 0 ∈ data)
    (hne : data ≠ []) (hval : (utf8Decode data).isSome) :
    fromField (data ++ List.replicate k 0) = Except.ok (some data) := by
  have hnone : ∀ a ∈ data, (fun b => b == 0) a = false := by
    intro a ha
    simp only [beq_eq_false_iff_ne, ne_eq]
    exact fun he => hnn (he ▸ ha)
  have hrep : List.findIdx (fun b => b == 0) (List.replicate k 0) = 0 := by
    cases k with
    | zero => rfl
    | succ k0 =>
      rw [List.replicate_succ]
      simp [List.findIdx_cons]
  have hidx : List.findIdx (fun b => b == 0) (data ++ List.replicate k 0) = data.length := by
    rw [findIdx_append_of_none _ hnone, hrep]
    omega
  unfold fromField
  simp only [hidx, List.take_left]
  rw [if_neg (by simp [List.isEmpty_iff, hne])]
  obtain ⟨cs, hcs⟩ := Option.isSome_iff_exists.mp hval
  rw [hcs]

theorem fromField_strField {data : List Nat} (W : Nat) (hnn : ¬ 0 ∈ data)
    (hne : data ≠ []) (hval : (utf8Decode data).isSome) :
    fromField (strField W data) = Except.ok (some data) :=
  fromField_data_pad (W - data.length) hnn hne hval

theorem stringFromField_strField {data : List Nat} (W : Nat) (hnn : ¬ 0 ∈ data)
    (hne : data ≠ []) (hval : (utf8Decode data).isSome) :
    stringFromField (strField W data) = Except.ok data := by
  unfold stringFromField
  rw [fromField_strField W hnn hne hval]
  rfl

theorem fromField_zeros (k : Nat) : fromField (List.replicate k 0) = Except.ok none := by
  have hrep : List.findIdx (fun b => b == 0) (List.replicate k 0) = 0 := by
    cases k with
    | zero => rfl
    | succ k0 =>
      rw [List.replicate_succ]
      simp [List.findIdx_cons]
  unfold fromField
  simp only [hrep, List.take_zero]
  rfl

/-! ## Serialize/parse round-trip machinery -/

theorem err_bind {α β : Type} (e : BasicTarError) (f : α → Except BasicTarError β) :
    (Except.error e >>= f) = Except.error e := rfl

theorem packRaw_lengthsOk {path : List Nat} {m u g sz mt tf : Nat} {lf cs : List Nat}
    (hp : path.length ≤ 100) (hm : (octalRepr m).length ≤ 7) (hu : (octalRepr u).length ≤ 7)
    (hg : (octalRepr g).length ≤ 7) (hs : (octalRepr sz).length ≤ 11)
    (hmt : (octalRepr mt).length ≤ 11) (hlf : lf.length = 100) (hcs : cs.length = 8) :
    (packRaw path m u g sz mt tf lf cs).lengthsOk := by
  refine ⟨strField_length hp, octField_length (by omega) (by omega),
    octField_length (by omega) (by omega), octField_length (by omega) (by omega),
    octField_length (by omega) (by omega), octField_length (by omega) (by omega),
    hcs, rfl, hlf, List.length_replicate _ _, List.length_replicate _ _⟩

theorem packRaw_bytes {path : List Nat} {m u g sz mt tf : Nat} {lf cs : List Nat}
    (hp : ∀ b ∈ path, b ≤ 255) (htf : tf ≤ 255) (hlf : ∀ b ∈ lf, b ≤ 255)
    (hcs : ∀ b ∈ cs, b ≤ 255) :
    ∀ b ∈ (packRaw path m u g sz mt tf lf cs).toRaw, b ≤ 255 := by
  intro b hb
  unfold packRaw RawHeader.toRaw at hb
  simp only [List.mem_append] at hb
  rcases hb with hb | hb | hb | hb | hb | hb | hb | hb | hb | hb | hb
  · exact strField_bytes 100 hp b hb
  · exact octField_bytes 8 m b hb
  · exact octField_bytes 8 u b hb
  · exact octField_bytes 8 g b hb
  · exact octField_bytes 12 sz b hb
  · exact octField_bytes 12 mt b hb
  · exact hcs b hb
  · simp at hb
    omega
  · exact hlf b hb
  · have := List.eq_of_mem_replicate hb
    omega
  · have := List.eq_of_mem_replicate hb
    omega

theorem checksum_write_packRaw (path : List Nat) (m u g sz mt tf : Nat) (lf : List Nat)
    (h7 : (octalRepr (Checksum.compute
      (packRaw path m u g sz mt tf lf (List.replicate 8 0)))).length ≤ 7) :
    Checksum.write (packRaw path m u g sz mt tf lf (List.replicate 8 0)) =
      Except.ok (packRaw path m u g sz mt tf lf (octField 8 (Checksum.compute
        (packRaw path m u g sz mt tf lf (List.replicate 8 0))))) := by
  unfold Checksum.write u64IntoOctalField
  have hcs : (packRaw path m u g sz mt tf lf (List.replicate 8 0)).checksum =
      List.replicate 8 0 := rfl
  rw [hcs, octField_encode (by omega) (by omega)]
  rfl

theorem verify_after_write (t : RawHeader) (h : t.lengthsOk)
    (hb : ∀ b ∈ t.toRaw, b ≤ 255) (t1 : RawHeader)
    (hw : Checksum.write t = Except.ok t1) :
    Checksum.verify t1 = Except.ok () := by
  have hcle := compute_le t h hb
  have h87 : (8 : Nat) ^ 7 = 2097152 := by norm_num
  have h7 : (octalRepr (Checksum.compute t)).length ≤ 7 :=
    octalRepr_length_le (by omega) (by omega)
  have hcs8 : t.checksum.length = 8 := h.2.2.2.2.2.2.1
  obtain ⟨F, hF⟩ : ∃ F : List Nat, F = List.replicate (t.checksum.length - 1 -
      (octalRepr (Checksum.compute t)).length) 48 ++
      octalRepr (Checksum.compute t) ++ [0] := ⟨_, rfl⟩
  have henc : optionIntoOctalField (some (Checksum.compute t)) t.checksum =
      Except.ok F := by
    rw [hF]
    exact octal_encode_eq (by omega) (by omega)
  unfold Checksum.write u64IntoOctalField at hw
  rw [henc] at hw
  have hw2 : Except.ok { t with checksum := F } = Except.ok t1 := hw
  have ht1 := Except.ok.inj hw2
  subst ht1
  have h64 : (2 : Nat) ^ 64 = 18446744073709551616 := by norm_num
  have hdec : u64FromOctalField F = Except.ok (Checksum.compute t) := by
    rw [hF]
    unfold u64FromOctalField
    rw [octal_decode_eq (by omega)]
    rfl
  have hflen : F.length = 8 := by
    rw [hF]
    simp only [List.length_append, List.length_replicate, List.length_cons, List.length_nil]
    omega
  have hcc := compute_set_checksum t F h hflen
  unfold Checksum.verify
  have hproj : ({ t with checksum := F } : RawHeader).checksum = F := rfl
  rw [hproj, hdec, ok_bind, hcc, if_pos rfl]
  rfl

theorem serialize_parse_core (path : List Nat) (m u g sz mt tf : Nat)
    (lname : Option (List Nat)) (lf : List Nat)
    (hp1 : path ≠ []) (hp2 : path.length ≤ 100) (hp3 : (utf8Decode path).isSome)
    (hp4 : ¬ 0 ∈ path)
    (hm2 : m < 8 ^ 7) (hu2 : u < 8 ^ 7) (hg2 : g < 8 ^ 7)
    (hs2 : sz < 8 ^ 11) (hmt2 : mt < 8 ^ 11) (htf : tf ≤ 255)
    (hencLink : intoField lname (List.replicate 100 0) = Except.ok lf)
    (hdecLink : fromField lf = Except.ok lname)
    (hlfLen : lf.length = 100) (hlfBytes : ∀ b ∈ lf, b ≤ 255) :
    (Header.serialize ⟨path, some m, some u, some g, sz, some mt, tf, lname⟩).bind
      Header.parse =
      Except.ok ⟨path, some m, some u, some g, sz, some mt, tf, lname⟩ := by
  have h8_7 : (8 : Nat) ^ 7 = 2097152 := by norm_num
  have h8_11 : (8 : Nat) ^ 11 = 8589934592 := by norm_num
  have h64 : (2 : Nat) ^ 64 = 18446744073709551616 := by norm_num
  have hpathBytes : ∀ b ∈ path, b ≤ 255 := utf8_valid_bytes_le hp3
  have hm7 : (octalRepr m).length ≤ 7 := octalRepr_length_le (by omega) hm2
  have hu7 : (octalRepr u).length ≤ 7 := octalRepr_length_le (by omega) hu2
  have hg7 : (octalRepr g).length ≤ 7 := octalRepr_length_le (by omega) hg2
  have hs11 : (octalRepr sz).length ≤ 11 := octalRepr_length_le (by omega) hs2
  have hmt11 : (octalRepr mt).length ≤ 11 := octalRepr_length_le (by omega) hmt2
  -- encoding equations
  have hencName : intoField (some path) (List.replicate 100 0) =
      Except.ok (strField 100 path) := by
    have := @intoField_some_ok path (List.replicate 100 0)
      (by rw [List.length_replicate]; exact hp2)
    rwa [List.length_replicate] at this
  have hencM : optionIntoOctalField (some m) (List.replicate 8 0) =
      Except.ok (octField 8 m) := octField_encode (by omega) (by omega)
  have hencU : optionIntoOctalField (some u) (List.replicate 8 0) =
      Except.ok (octField 8 u) := octField_encode (by omega) (by omega)
  have hencG : optionIntoOctalField (some g) (List.replicate 8 0) =
      Except.ok (octField 8 g) := octField_encode (by omega) (by omega)
  have hencS : u64IntoOctalField sz (List.replicate 12 0) =
      Except.ok (octField 12 sz) := by
    unfold u64IntoOctalField
    exact octField_encode (by omega) (by omega)
  have hencMt : optionIntoOctalField (some mt) (List.replicate 12 0) =
      Except.ok (octField 12 mt) := octField_encode (by omega) (by omega)
  -- the pre-checksum block
  have hlen0 : (packRaw path m u g sz mt tf lf (List.replicate 8 0)).lengthsOk :=
    packRaw_lengthsOk hp2 hm7 hu7 hg7 hs11 hmt11 hlfLen (List.length_replicate 8 0)
  have hb0 : ∀ b ∈ (packRaw path m u g sz mt tf lf (List.replicate 8 0)).toRaw, b ≤ 255 :=
    packRaw_bytes hpathBytes htf hlfBytes
      (fun b hb => by have := List.eq_of_mem_replicate hb; omega)
  have hCle : Checksum.compute (packRaw path m u g sz mt tf lf (List.replicate 8 0)) ≤
      130560 := compute_le _ hlen0 hb0
  have hC7 : (octalRepr (Checksum.compute
      (packRaw path m u g sz mt tf lf (List.replicate 8 0)))).length ≤ 7 :=
    octalRepr_length_le (by omega) (by omega)
  have hwrite := checksum_write_packRaw path m u g sz mt tf lf hC7
  -- serialization result
  have hser : Header.serialize ⟨path, some m, some u, some g, sz, some mt, tf, lname⟩ =
      Except.ok (RawHeader.toRaw (packRaw path m u g sz mt tf lf (octField 8
        (Checksum.compute (packRaw path m u g sz mt tf lf (List.replicate 8 0)))))) := by
    simp only [Header.serialize, hencName, hencM, hencU, hencG, hencS, hencMt, hencLink,
      ok_bind]
    rw [show (⟨strField 100 path, octField 8 m, octField 8 u, octField 8 g, octField 12 sz,
      octField 12 mt, List.replicate 8 0, [tf], lf, List.replicate 243 0,
      List.replicate 12 0⟩ : RawHeader) =
      packRaw path m u g sz mt tf lf (List.replicate 8 0) from rfl]
    rw [hwrite]
    rfl
  -- lengths of the finished block
  have hlen1 : (packRaw path m u g sz mt tf lf (octField 8 (Checksum.compute
      (packRaw path m u g sz mt tf lf (List.replicate 8 0))))).lengthsOk :=
    packRaw_lengthsOk hp2 hm7 hu7 hg7 hs11 hmt11 hlfLen
      (octField_length (by omega) (by omega))
  have hfromRaw := fromRaw_toRaw _ hlen1
  have hver := verify_after_write _ hlen0 hb0 _ hwrite
  -- the serialized block is not the all-zero block
  have hne512 : (packRaw path m u g sz mt tf lf (octField 8 (Checksum.compute
      (packRaw path m u g sz mt tf lf (List.replicate 8 0))))).toRaw ≠
      List.replicate 512 0 := by
    intro heq
    cases hp : path with
    | nil => exact hp1 hp
    | cons p0 pt =>
      have hp0 : p0 ∈ path := by rw [hp]; exact List.mem_cons_self _ _
      have hp0ne : p0 ≠ 0 := fun he => hp4 (he ▸ hp0)
      have hhead : (packRaw path m u g sz mt tf lf (octField 8 (Checksum.compute
          (packRaw path m u g sz mt tf lf (List.replicate 8 0))))).toRaw.head? =
          some p0 := by
        unfold packRaw RawHeader.toRaw strField
        rw [hp]
        rfl
      rw [heq] at hhead
      have h2 : (List.replicate 512 (0 : Nat)).head? = some 0 := rfl
      rw [h2] at hhead
      exact hp0ne (Option.some.inj hhead).symm
  -- projection equations for the finished block
  have hTname : ∀ cs : List Nat, (packRaw path m u g sz mt tf lf cs).name =
    strField 100 path := fun _ => rfl
  have hTmode : ∀ cs : List Nat, (packRaw path m u g sz mt tf lf cs).mode =
    octField 8 m := fun _ => rfl
  have hTuid : ∀ cs : List Nat, (packRaw path m u g sz mt tf lf cs).uid =
    octField 8 u := fun _ => rfl
  have hTgid : ∀ cs : List Nat, (packRaw path m u g sz mt tf lf cs).gid =
    octField 8 g := fun _ => rfl
  have hTsize : ∀ cs : List Nat, (packRaw path m u g sz mt tf lf cs).size =
    octField 12 sz := fun _ => rfl
  have hTmtime : ∀ cs : List Nat, (packRaw path m u g sz mt tf lf cs).mtime =
    octField 12 mt := fun _ => rfl
  have hTtypeflag : ∀ cs : List Nat, (packRaw path m u g sz mt tf lf cs).typeflag =
    [tf] := fun _ => rfl
  have hTlink : ∀ cs : List Nat, (packRaw path m u g sz mt tf lf cs).linkname =
    lf := fun _ => rfl
  -- decoding equations
  have hdecName : stringFromField (strField 100 path) = Except.ok path :=
    stringFromField_strField 100 hp4 hp1 hp3
  have hdecM : optionFromOctalField (octField 8 m) = Except.ok (some m) :=
    octField_decode 8 (by omega)
  have hdecU : optionFromOctalField (octField 8 u) = Except.ok (some u) :=
    octField_decode 8 (by omega)
  have hdecG : optionFromOctalField (octField 8 g) = Except.ok (some g) :=
    octField_decode 8 (by omega)
  have hdecS : u64FromOctalField (octField 12 sz) = Except.ok sz :=
    octField_u64_decode 12 (by omega)
  have hdecMt : optionFromOctalField (octField 12 mt) = Except.ok (some mt) :=
    octField_decode 12 (by omega)
  -- the parse result
  have hpar : Header.parse ((packRaw path m u g sz mt tf lf (octField 8 (Checksum.compute
      (packRaw path m u g sz mt tf lf (List.replicate 8 0))))).toRaw) =
      Except.ok ⟨path, some m, some u, some g, sz, some mt, tf, lname⟩ := by
    simp only [Header.parse]
    rw [if_neg hne512]
    simp only [hfromRaw, hTname, hTmode, hTuid, hTgid, hTsize, hTmtime, hTtypeflag, hTlink,
      hver, hdecName, hdecM, hdecU, hdecG, hdecS, hdecMt, hdecLink, ok_bind]
    rfl
  rw [hser]
  exact hpar

/-! ## C1: header round-trip -/

/-- C1 (amended): `parse (serialize h) = h` for every header whose fields fit
their byte widths, provided additionally that the optional numeric fields
`mode`, `uid`, `gid`, `mtime` are present (an absent optional field serializes
as the digits of 0 and parses back as `Some 0`), that `path` (and a present
`linkname`) contains no NUL byte, and that a present `linkname` is non-empty
(both would be truncated to the first NUL, and an empty `linkname` parses
back as absent). -/
theorem header_roundtrip (h : Header)
    (hp1 : h.path ≠ []) (hp2 : h.path.length ≤ 100)
    (hp3 : (utf8Decode h.path).isSome) (hp4 : ¬ 0 ∈ h.path)
    (hm : ∃ v, h.mode = some v ∧ v < 8 ^ 7)
    (hu : ∃ v, h.uid = some v ∧ v < 8 ^ 7)
    (hg : ∃ v, h.gid = some v ∧ v < 8 ^ 7)
    (hs : h.size < 8 ^ 11)
    (hmt : ∃ v, h.mtime = some v ∧ v < 8 ^ 11)
    (htf : h.typeflag ≤ 255)
    (hl : h.linkname = none ∨ ∃ l, h.linkname = some l ∧ l ≠ [] ∧ l.length ≤ 100 ∧
      (utf8Decode l).isSome ∧ ¬ 0 ∈ l) :
    (Header.serialize h).bind Header.parse = Except.ok h := by
  obtain ⟨m, hm1, hm2⟩ := hm
  obtain ⟨u, hu1, hu2⟩ := hu
  obtain ⟨g, hg1, hg2⟩ := hg
  obtain ⟨mt, hmt1, hmt2⟩ := hmt
  obtain ⟨lf, hencLink, hdecLink, hlfLen, hlfBytes⟩ :
      ∃ lf, intoField h.linkname (List.replicate 100 0) = Except.ok lf ∧
        fromField lf = Except.ok h.linkname ∧ lf.length = 100 ∧ ∀ b ∈ lf, b ≤ 255 := by
    rcases hl with hnone | ⟨l, hsome, hlne, hllen, hlval, hlnn⟩
    · refine ⟨List.replicate 100 0, ?_, ?_, List.length_replicate _ _, ?_⟩
      · rw [hnone]
        have := intoField_none_ok (List.replicate 100 (0 : Nat))
        rwa [List.length_replicate] at this
      · rw [hnone]
        exact fromField_zeros 100
      · intro b hb
        have := List.eq_of_mem_replicate hb
        omega
    · refine ⟨strField 100 l, ?_, ?_, strField_length hllen,
        strField_bytes 100 (utf8_valid_bytes_le hlval)⟩
      · rw [hsome]
        have := @intoField_some_ok l (List.replicate 100 0)
          (by rw [List.length_replicate]; exact hllen)
        rwa [List.length_replicate] at this
      · rw [hsome]
        exact fromField_strField 100 hlnn hlne hlval
  have hcore := serialize_parse_core h.path m u g h.size mt h.typeflag h.linkname lf
    hp1 hp2 hp3 hp4 hm2 hu2 hg2 hs hmt2 htf hencLink hdecLink hlfLen hlfBytes
  rw [← hm1, ← hu1, ← hg1, ← hmt1] at hcore
  exact hcore

set_option maxRecDepth 10000 in
/-- Counterexample for C1 as stated: a header with an absent `mode` (and
other absent optional fields) fits every byte-width constraint, but the
round trip turns the absent fields into `Some 0`. -/
theorem header_roundtrip_counterexample :
    (Header.serialize ⟨[97], none, none, none, 0, none, 48, none⟩).bind Header.parse =
      Except.ok ⟨[97], some 0, some 0, some 0, 0, some 0, 48, none⟩ ∧
    (⟨[97], some 0, some 0, some 0, 0, some 0, 48, none⟩ : Header) ≠
      ⟨[97], none, none, none, 0, none, 48, none⟩ := by
  constructor
  · decide
  · decide

set_option maxRecDepth 10000 in
/-- Witness for C1 (amended) at a concrete fully-populated header. -/
theorem header_roundtrip_witness :
    (Header.serialize ⟨[97], some 1, some 2, some 3, 4, some 5, 48, some [98]⟩).bind
      Header.parse =
      Except.ok ⟨[97], some 1, some 2, some 3, 4, some 5, 48, some [98]⟩ :=
  header_roundtrip ⟨[97], some 1, some 2, some 3, 4, some 5, 48, some [98]⟩
    (by decide) (by decide) (by decide) (by decide)
    ⟨1, rfl, by decide⟩ ⟨2, rfl, by decide⟩ ⟨3, rfl, by decide⟩ (by decide)
    ⟨5, rfl, by decide⟩ (by decide)
    (Or.inr ⟨[98], rfl, by decide, by decide, by decide, by decide⟩)

/-! ## C4: serialize rejections -/

theorem optionIntoOctalField_none_ok {field : List Nat} (h0 : 0 < field.length) :
    optionIntoOctalField none field =
      Except.ok (List.replicate (field.length - 1) 48 ++ [0]) := by
  unfold optionIntoOctalField intoTerminatedField intoField
  rw [if_neg (by omega)]
  have htl : (field.take (field.length - 1)).length = field.length - 1 := by
    rw [List.length_take]
    omega
  simp only [Option.map_none', Option.getD_none, List.length_nil, Nat.sub_zero,
    List.append_nil, Option.map_some', Option.getD_some, htl]
  rw [if_neg (by rw [List.length_replicate]; omega)]
  simp only [Except.map, Option.getD_some]
  rw [List.take_left' (List.length_replicate _ _)]

theorem optionIntoOctalField_ok_or (v : Option Nat) (field : List Nat) :
    (∃ f, optionIntoOctalField v field = Except.ok f) ∨
      optionIntoOctalField v field =
        Except.error (BasicTarError.ApiMisuse "`field` is too small to hold the value") := by
  by_cases h0 : field.length = 0
  · right
    unfold optionIntoOctalField intoTerminatedField
    rw [if_pos h0]
  · cases v with
    | none => exact Or.inl ⟨_, optionIntoOctalField_none_ok (by omega)⟩
    | some w =>
      by_cases hlen : (octalRepr w).length ≤ field.length - 1
      · exact Or.inl ⟨_, octal_encode_eq (by omega) hlen⟩
      · exact Or.inr (octal_encode_fail (by omega))

theorem intoField_too_long {s : List Nat} {field : List Nat}
    (h : field.length < s.length) :
    intoField (some s) field =
      Except.error (BasicTarError.ApiMisuse "`field` is too small to hold the value") := by
  unfold intoField
  rw [if_pos (by simpa using h)]

set_option maxRecDepth 10000 in
/-- C4 (amended): serialization fails with the field-too-small (API-misuse)
error whenever `path` exceeds 100 UTF-8 bytes, or whenever `linkname` is
present and exceeds 100 bytes (every earlier encoding step either succeeds or
fails with the same API-misuse error); an empty `path` is NOT rejected — it
serializes successfully into an all-NUL name field. -/
theorem serialize_field_too_small :
    (∀ h : Header, 100 < h.path.length →
      Header.serialize h =
        Except.error (BasicTarError.ApiMisuse "`field` is too small to hold the value")) ∧
    (∀ (h : Header) (l : List Nat), h.path.length ≤ 100 → h.linkname = some l →
      100 < l.length →
      Header.serialize h =
        Except.error (BasicTarError.ApiMisuse "`field` is too small to hold the value")) ∧
    exceptIsOk (Header.serialize ⟨[], none, none, none, 0, none, 48, none⟩) = true := by
  refine ⟨?_, ?_, ?_⟩
  · intro h hlong
    have hname : intoField (some h.path) (List.replicate 100 0) =
        Except.error (BasicTarError.ApiMisuse "`field` is too small to hold the value") :=
      intoField_too_long (by rw [List.length_replicate]; exact hlong)
    simp only [Header.serialize, hname, err_bind]
  · intro h l hple hlink hllong
    have hname : intoField (some h.path) (List.replicate 100 0) =
        Except.ok (strField 100 h.path) := by
      have := @intoField_some_ok h.path (List.replicate 100 0)
        (by rw [List.length_replicate]; exact hple)
      rwa [List.length_replicate] at this
    have hlinkerr : intoField h.linkname (List.replicate 100 0) =
        Except.error (BasicTarError.ApiMisuse "`field` is too small to hold the value") := by
      rw [hlink]
      exact intoField_too_long (by rw [List.length_replicate]; exact hllong)
    rcases optionIntoOctalField_ok_or h.mode (List.replicate 8 0) with ⟨f1, hf1⟩ | hf1
    · rcases optionIntoOctalField_ok_or h.uid (List.replicate 8 0) with ⟨f2, hf2⟩ | hf2
      · rcases optionIntoOctalField_ok_or h.gid (List.replicate 8 0) with ⟨f3, hf3⟩ | hf3
        · rcases optionIntoOctalField_ok_or (some h.size) (List.replicate 12 0) with
            ⟨f4, hf4⟩ | hf4
          · rcases optionIntoOctalField_ok_or h.mtime (List.replicate 12 0) with
              ⟨f5, hf5⟩ | hf5
            · simp only [Header.serialize, u64IntoOctalField, hname, hf1, hf2, hf3, hf4,
                hf5, hlinkerr, ok_bind, err_bind]
            · simp only [Header.serialize, u64IntoOctalField, hname, hf1, hf2, hf3, hf4,
                hf5, ok_bind, err_bind]
          · simp only [Header.serialize, u64IntoOctalField, hname, hf1, hf2, hf3, hf4,
              ok_bind, err_bind]
        · simp only [Header.serialize, u64IntoOctalField, hname, hf1, hf2, hf3,
            ok_bind, err_bind]
      · simp only [Header.serialize, u64IntoOctalField, hname, hf1, hf2, ok_bind, err_bind]
    · simp only [Header.serialize, u64IntoOctalField, hname, hf1, ok_bind, err_bind]
  · decide

set_option maxRecDepth 10000 in
/-- Counterexample for C4 as stated: a header with an empty `path` serializes
successfully — the empty-path check claimed by the spec does not exist. -/
theorem serialize_empty_path_accepted :
    exceptIsOk (Header.serialize ⟨[], none, none, none, 0, none, 48, none⟩) = true := by
  decide

set_option maxRecDepth 10000 in
/-- Witness for C4 (amended): a 101-byte path is rejected with the
field-too-small error. -/
theorem serialize_field_too_small_witness :
    Header.serialize ⟨List.replicate 101 97, none, none, none, 0, none, 48, none⟩ =
      Except.error (BasicTarError.ApiMisuse "`field` is too small to hold the value") :=
  serialize_field_too_small.1 ⟨List.replicate 101 97, none, none, none, 0, none, 48, none⟩
    (by decide)

end BasicTar
